import Mathlib

/-!
Shallow embedding of `FreeCADBatchFEMTools.py` (entity-correspondence and
boundary/body reconciliation subsystem) and proofs about it.

Modelling conventions:
* FreeCAD `Vector`/`Vertex` objects become triples of rationals (`Vec`).
* Kernel geometry handles (`Face`, `Edge`, `Solid`) become structures whose
  fields are the kernel queries the Python code performs on them
  (vertex lists, center of mass, parametric range/evaluation, inside tests,
  distance to an edge).  The code never mutates geometry, only queries it.
* Python floats become rationals.  The one square root in the source
  (`vec3.Length` inside `vectors_are_same`) is handled by an exact rational
  test on the squared length; the lemma `vectors_are_same_eq_isclose_length`
  proves this test equivalent to the literal `isclose(Length, 0, abs_tol=tol)`
  comparison over the reals.
* Functions that `raise` become `Except String` values carrying the message;
  functions returning `None` on failure become `Option`.
* The mutable FreeCAD document holding `MeshGroup` objects becomes an explicit
  heap (`Doc`, a list of groups addressed by index), and Python dicts become
  association lists with most-recent-binding-wins lookup.
-/

/-- A 3d point / vector: FreeCAD `Vector` (fields x, y, z). -/
structure Vec where
  x : ℚ
  y : ℚ
  z : ℚ
deriving DecidableEq

/-- Componentwise difference, FreeCAD `vec1.sub(vec2)`. -/
def vsub (a b : Vec) : Vec :=
  ⟨a.x - b.x, a.y - b.y, a.z - b.z⟩

/-- Squared Euclidean length of a vector; `vec.Length` in FreeCAD is its
square root. -/
def sqNorm (v : Vec) : ℚ :=
  v.x ^ 2 + v.y ^ 2 + v.z ^ 2

/-- The default absolute/relative tolerance `1e-4` used throughout the
source. -/
def default_tol : ℚ := 1 / 10000

/-- Embeds `isclose(a, b, rel_tol, abs_tol)`:
`abs(a-b) <= max(rel_tol * max(abs(a), abs(b)), abs_tol)`. -/
def isclose (a b rel_tol abs_tol : ℚ) : Bool :=
  decide (|a - b| ≤ max (rel_tol * max |a| |b|) abs_tol)

/-- Embeds `vectors_are_same(vec1, vec2, tol)`:
`isclose(vec1.sub(vec2).Length, 0., abs_tol=tol)` with the default
`rel_tol = 1e-4`.  Writing `L` for the Euclidean length of the difference,
the source condition is `L ≤ max (1e-4 * L) tol`; since `1e-4 < 1` this holds
iff `L = 0` or (`L² ≤ tol²` and `0 ≤ tol`), which is the exact rational test
used here (see `vectors_are_same_eq_isclose_length`). -/
def vectors_are_same (vec1 vec2 : Vec) (tol : ℚ) : Bool :=
  decide (sqNorm (vsub vec1 vec2) = 0) ||
    (decide (sqNorm (vsub vec1 vec2) ≤ tol ^ 2) && decide (0 ≤ tol))

/-- An edge handle: its two end vertices (`edge.Vertexes[0]`,
`edge.Vertexes[1]`) plus the kernel oracle giving the distance from a point
to the edge (`Part.Vertex(p).distToShape(edge)[0]`). -/
structure Edge where
  v0 : Vec
  v1 : Vec
  distToPoint : Vec → ℚ

/-- A face handle: the kernel queries performed on faces by the source.
`Vertexes` lists the vertex points, `isInside p tol inclBoundary` is the
kernel inside-test, `ParameterRange` is `(u_min, u_max, v_min, v_max)`,
`valueAt`/`isPartOfDomain` are the parametric evaluation queries. -/
structure Face where
  Vertexes : List Vec
  CenterOfMass : Vec
  ParameterRange : ℚ × ℚ × ℚ × ℚ
  valueAt : ℚ → ℚ → Vec
  isPartOfDomain : ℚ → ℚ → Bool
  isInside : Vec → ℚ → Bool → Bool
  Edges : List Edge

/-- Embeds `faces_same_center_of_masses(face1, face2, tolerance)`. -/
def faces_same_center_of_masses (face1 face2 : Face) (tolerance : ℚ) : Bool :=
  vectors_are_same face1.CenterOfMass face2.CenterOfMass tolerance

/-- Number of pairs `(vertex, cvertex)` from `face2.Vertexes × face1.Vertexes`
appended to `face_vertices_found` by `faces_have_same_vertices`. -/
def countMatchingPairs (face1 face2 : Face) (tolerance : ℚ) : Nat :=
  (face2.Vertexes.map
    (fun vertex => face1.Vertexes.countP
      (fun cvertex => vectors_are_same vertex cvertex tolerance))).sum

/-- Embeds `faces_have_same_vertices(face1, face2, tolerance)`: the number of
close pairs must equal the vertex count of both faces. -/
def faces_have_same_vertices (face1 face2 : Face) (tolerance : ℚ) : Bool :=
  decide (countMatchingPairs face1 face2 tolerance = face2.Vertexes.length) &&
    decide (countMatchingPairs face1 face2 tolerance = face1.Vertexes.length)

/-- Embeds `faces_are_same(face1, face2, tolerance)`. -/
def faces_are_same (face1 face2 : Face) (tolerance : ℚ) : Bool :=
  faces_same_center_of_masses face1 face2 tolerance &&
    faces_have_same_vertices face1 face2 tolerance

/-- Embeds `is_same_vertices(vertex1, vertex2, tolerance)`: independent
per-axis absolute comparison with strict `<`. -/
def is_same_vertices (vertex1 vertex2 : Vec) (tolerance : ℚ) : Bool :=
  decide (|vertex1.x - vertex2.x| < tolerance) &&
    (decide (|vertex1.y - vertex2.y| < tolerance) &&
      decide (|vertex1.z - vertex2.z| < tolerance))

/-- Embeds `is_same_edge(edge1, edge2, tolerance)`.  Note the `elif`: the
swapped-endpoint comparison is attempted only when the first endpoints do
not match. -/
def is_same_edge (edge1 edge2 : Edge) (tolerance : ℚ) : Bool :=
  if is_same_vertices edge1.v0 edge2.v0 tolerance then
    is_same_vertices edge1.v1 edge2.v1 tolerance
  else if is_same_vertices edge1.v0 edge2.v1 tolerance then
    is_same_vertices edge1.v1 edge2.v0 tolerance
  else false

/-- Modelled from the spec (claim side): `edgesEqual(e1, e2, tol)` is true iff
the endpoints match in either order (undirected edge identity).  This is the
property claimed of `is_same_edge`, to be compared with the source. -/
def edgesEqualSpec (edge1 edge2 : Edge) (tolerance : ℚ) : Bool :=
  (is_same_vertices edge1.v0 edge2.v0 tolerance &&
      is_same_vertices edge1.v1 edge2.v1 tolerance) ||
    (is_same_vertices edge1.v0 edge2.v1 tolerance &&
      is_same_vertices edge1.v1 edge2.v0 tolerance)

/-- Modelled from the spec (claim side): `pointsEqual(p, q, tol)` holds iff
the Euclidean distance between `p` and `q` is at most
`max(rel_tol * max(|p|, |q|), abs_tol)` with `rel_tol = 1e-4`, `abs_tol = tol`,
where `|p|`, `|q|` are the magnitudes of the two points.  This is the formula
claimed of `vectors_are_same`, to be compared with the source. -/
def pointsEqualClaimFormula (p q : Vec) (tol : ℚ) : Prop :=
  Real.sqrt (sqNorm (vsub p q) : ℝ) ≤
    max ((1 / 10000) * max (Real.sqrt (sqNorm p : ℝ)) (Real.sqrt (sqNorm q : ℝ)))
      (tol : ℝ)

/-- Embeds `is_point_inside_face(face, vector, tolerance)`:
`face.isInside(vector, tolerance, True)`. -/
def is_point_inside_face (face : Face) (vector : Vec) (tolerance : ℚ) : Bool :=
  face.isInside vector tolerance true

/-- Embeds `is_point_on_face_edges(face, p2, tol)`: whether the distance from
`p2` to some edge of `face` is below `tol`. -/
def is_point_on_face_edges (face : Face) (p2 : Vec) (tol : ℚ) : Bool :=
  face.Edges.any (fun edge => decide (edge.distToPoint p2 < tol))

/-- Whether at least two of the three coordinates moved at least one unit,
the test `(abs(p1.x-p2.x) >= 1) + (abs(p1.y-p2.y) >= 1) + (abs(p1.z-p2.z) >= 1) > 1`
in `get_point_from_face_close_to_edge`. -/
def movedTwoCoords (p1 p2 : Vec) : Bool :=
  decide (((if |p1.x - p2.x| ≥ 1 then 1 else 0) +
      (if |p1.y - p2.y| ≥ 1 then 1 else 0) +
      (if |p1.z - p2.z| ≥ 1 then (1 : Nat) else 0)) > 1)

/-- The `while` loop of `get_point_from_face_close_to_edge`, with explicit
fuel.  Each iteration increases `v_test` by at least `1/2`, so the canonical
fuel `cteFuel` (below) is never exhausted before the loop guard
`u_test < u_max and v_test < v_max` fails; `gpf_cte_loop_fuel_irrelevant`
proves this, so the fuel is only a termination device. -/
def gpf_cte_loop (face : Face) (p1 : Vec) (u_max v_max : ℚ) :
    Nat → ℚ → ℚ → Option Vec
  | 0, _, _ => none
  | fuel + 1, u_test, v_test =>
    if u_test < u_max ∧ v_test < v_max then
      let p2 := face.valueAt u_test v_test
      if movedTwoCoords p1 p2 then
        if is_point_on_face_edges face p2 default_tol then
          gpf_cte_loop face p1 u_max v_max fuel u_test (v_test + 1 / 2)
        else if face.isPartOfDomain u_test v_test then some p2
        else none
      else gpf_cte_loop face p1 u_max v_max fuel (u_test + 1) (v_test + 1)
    else none

/-- Fuel sufficient for the `get_point_from_face_close_to_edge` loop starting
from `v_test = v_min + 1`. -/
def cteFuel (v_min v_max : ℚ) : Nat :=
  (⌈2 * (v_max - v_min)⌉).toNat + 1

/-- Embeds `get_point_from_face_close_to_edge(face)`. -/
def get_point_from_face_close_to_edge (face : Face) : Option Vec :=
  let u_min := face.ParameterRange.1
  let u_max := face.ParameterRange.2.1
  let v_min := face.ParameterRange.2.2.1
  let v_max := face.ParameterRange.2.2.2
  let p1 := face.valueAt u_min v_min
  gpf_cte_loop face p1 u_max v_max (cteFuel v_min v_max) (u_min + 1) (v_min + 1)

/-- The fixed subdivision sequence of the grid searches in
`get_point_from_face` and `get_point_from_solid`: the first hundred values
2, 3, 5, ..., 541 (2 and the odd primes up to 541). -/
def primes_list : List Nat :=
  [2, 3, 5, 7, 11, 13, 17, 19, 23, 29, 31, 37, 41, 43, 47, 53, 59, 61, 67, 71,
   73, 79, 83, 89, 97, 101, 103, 107, 109, 113, 127, 131, 137, 139, 149, 151,
   157, 163, 167, 173, 179, 181, 191, 193, 197, 199, 211, 223, 227, 229, 233,
   239, 241, 251, 257, 263, 269, 271, 277, 281, 283, 293, 307, 311, 313, 317,
   331, 337, 347, 349, 353, 359, 367, 373, 379, 383, 389, 397, 401, 409, 419,
   421, 431, 433, 439, 443, 449, 457, 461, 463, 467, 479, 487, 491, 499, 503,
   509, 521, 523, 541]

/-- One grid pass of `get_point_from_face` for subdivision count
`split_count`: scan `i` in `range(1, split_count)` (outer, the `u` axis),
then `j` (inner, the `v` axis), returning the first in-domain sample. -/
def gpf_grid_pass (face : Face) (u_min v_min u_split_len v_split_len : ℚ)
    (split_count : Nat) : Option Vec :=
  (List.range' 1 (split_count - 1)).findSome? (fun i =>
    let u_test := u_min + (i : ℚ) * u_split_len
    (List.range' 1 (split_count - 1)).findSome? (fun j =>
      let v_test := v_min + (j : ℚ) * v_split_len
      if face.isPartOfDomain u_test v_test then some (face.valueAt u_test v_test)
      else none))

/-- The grid search of `get_point_from_face` over the subdivision counts. -/
def gpf_grid (face : Face) (u_min v_min u_len v_len : ℚ) :
    List Nat → Option Vec
  | [] => none
  | split_count :: rest =>
    match gpf_grid_pass face u_min v_min (u_len / (split_count : ℚ))
        (v_len / (split_count : ℚ)) split_count with
    | some p => some p
    | none => gpf_grid face u_min v_min u_len v_len rest

/-- Embeds `get_point_from_face(face)`: the close-to-edge probe first, then
the prime-subdivision grid search; `None` when both fail. -/
def get_point_from_face (face : Face) : Option Vec :=
  match get_point_from_face_close_to_edge face with
  | some point => some point
  | none =>
    let u_min := face.ParameterRange.1
    let u_max := face.ParameterRange.2.1
    let v_min := face.ParameterRange.2.2.1
    let v_max := face.ParameterRange.2.2.2
    gpf_grid face u_min v_min (u_max - u_min) (v_max - v_min) primes_list

/-- Embeds `is_face_in_face(face1, face2, tolerance)`.  All vertices of
`face1` must be inside `face2`; then a witness point of `face1` must be
inside `face2`.  When no witness point exists the source raises
`ValueError('Face point not found')`. -/
def is_face_in_face (face1 face2 : Face) (tolerance : ℚ) : Except String Bool :=
  if face1.Vertexes.all (fun vertex => is_point_inside_face face2 vertex tolerance) then
    match get_point_from_face face1 with
    | some point_in_face1 => .ok (is_point_inside_face face2 point_in_face1 tolerance)
    | none => .error "Face point not found"
  else .ok false

/-- A solid handle: the kernel queries used by `solids_are_the_same`. -/
structure Solid where
  Faces : List Face

/-- Number of pairs `(face, cface)` from `solid2.Faces × solid1.Faces`
appended to `solid_faces_found` by `solids_are_the_same`. -/
def countMatchingFacePairs (solid1 solid2 : Solid) : Nat :=
  (solid2.Faces.map
    (fun face => solid1.Faces.countP
      (fun cface => faces_same_center_of_masses cface face default_tol &&
        faces_have_same_vertices cface face default_tol))).sum

/-- Embeds `solids_are_the_same(solid1, solid2)`. -/
def solids_are_the_same (solid1 solid2 : Solid) : Bool :=
  decide (countMatchingFacePairs solid1 solid2 = solid2.Faces.length) &&
    decide (countMatchingFacePairs solid1 solid2 = solid1.Faces.length)

/-- The compound filter: its faces and solids, addressed purely by 1-based
positional index (`compound_filter.Shape.Faces`, `.Shape.Solids`). -/
structure CompoundFilter where
  Faces : List Face
  Solids : List Solid

/-- The compound-filter face name for 0-based index `num`:
`"Face" + str(num+1)`. -/
def faceIdxName (num : Nat) : String :=
  "Face" ++ toString (num + 1)

/-- The compound-filter solid name for 0-based index `num`:
`"Solid" + str(num+1)`. -/
def solidIdxName (num : Nat) : String :=
  "Solid" ++ toString (num + 1)

/-- The scan of `find_compound_filter_boundary`: `face_found` keeps the
index of the last `cface` for which `faces_have_same_vertices` held. -/
def fcf_boundary_loop (face : Face) : List Face → Nat → Option Nat → Option Nat
  | [], _, face_found => face_found
  | cface :: rest, num, face_found =>
    fcf_boundary_loop face rest (num + 1)
      (if faces_have_same_vertices cface face default_tol then some num else face_found)

/-- Embeds `find_compound_filter_boundary(compound_filter, face)`: the name
of the last matching compound-filter face, `None` when no face matches. -/
def find_compound_filter_boundary (compound_filter : CompoundFilter) (face : Face) :
    Option String :=
  match fcf_boundary_loop face compound_filter.Faces 0 none with
  | none => none
  | some num => some (faceIdxName num)

/-- The scan of `find_compound_filter_solid`, keeping the last match. -/
def fcf_solid_loop (solid : Solid) : List Solid → Nat → Option Nat → Option Nat
  | [], _, solid_found => solid_found
  | csolid :: rest, num, solid_found =>
    fcf_solid_loop solid rest (num + 1)
      (if solids_are_the_same csolid solid then some num else solid_found)

/-- Embeds `find_compound_filter_solid(compound_filter, solid)`. -/
def find_compound_filter_solid (compound_filter : CompoundFilter) (solid : Solid) :
    Option String :=
  match fcf_solid_loop solid compound_filter.Solids 0 none with
  | none => none
  | some num => some (solidIdxName num)

/-- The last index of `l` at which `p` holds (specification side, used to
state the last-match-wins property of the single-match locators). -/
def lastIdxWhere {α : Type} (p : α → Bool) : List α → Option Nat
  | [] => none
  | a :: rest =>
    match lastIdxWhere p rest with
    | some k => some (k + 1)
    | none => if p a then some 0 else none

/-- The inner loop `for found_cface in already_found_cfaces` of
`find_compound_filter_boundaries`: whether `cface` is inside some already
accepted compound face, propagating a witness-point failure. -/
def face_in_any (cface : Face) : List Face → Except String Bool
  | [] => .ok false
  | found_cface :: rest =>
    match is_face_in_face cface found_cface default_tol with
    | .error e => .error e
    | .ok true => .ok true
    | .ok false => face_in_any cface rest

/-- The main loop of `find_compound_filter_boundaries`, over the enumerated
compound-filter faces, threading the accumulated `face_name_list` and
`already_found_cfaces`. -/
def fcfbs_loop (face : Face) (used_compound_face_names : Option (List String)) :
    List (Nat × Face) → List String → List Face → Except String (List String)
  | [], face_name_list, _ => .ok face_name_list
  | (num, cface) :: rest, face_name_list, already_found_cfaces =>
    match is_face_in_face cface face default_tol with
    | .error e => .error e
    | .ok false => fcfbs_loop face used_compound_face_names rest face_name_list already_found_cfaces
    | .ok true =>
      match used_compound_face_names with
      | none =>
        fcfbs_loop face used_compound_face_names rest
          (face_name_list ++ [faceIdxName num]) already_found_cfaces
      | some used =>
        if faceIdxName num ∈ used then
          fcfbs_loop face used_compound_face_names rest face_name_list already_found_cfaces
        else
          match face_in_any cface already_found_cfaces with
          | .error e => .error e
          | .ok true =>
            fcfbs_loop face used_compound_face_names rest face_name_list already_found_cfaces
          | .ok false =>
            fcfbs_loop face used_compound_face_names rest
              (face_name_list ++ [faceIdxName num]) (already_found_cfaces ++ [cface])

/-- Embeds `find_compound_filter_boundaries(compound_filter, face,
used_compound_face_names)`: all compound-filter faces inside `face`, with
the used-names and nested-duplicate skips active only when a used-names
list is given; raises `ValueError("Faces not found")` when the collected
list is empty. -/
def find_compound_filter_boundaries (compound_filter : CompoundFilter) (face : Face)
    (used_compound_face_names : Option (List String)) : Except String (List String) :=
  match fcfbs_loop face used_compound_face_names compound_filter.Faces.enum [] [] with
  | .error e => .error e
  | .ok face_name_list =>
    if face_name_list = [] then .error "Faces not found" else .ok face_name_list

/-- Whether an `is_face_in_face` result is a successful `True`. -/
def containsOkTrue (e : Except String Bool) : Bool :=
  match e with
  | .ok true => true
  | _ => false

/-- Index-by-index characterisation of the faces accepted by
`find_compound_filter_boundaries` in used-names mode (specification side):
`acceptedUpTo cf face excl n` lists the indices `< n` whose face is inside
`face`, whose name is not excluded, and whose face is not inside the face of
a previously accepted index. -/
def acceptedUpTo (compound_filter : CompoundFilter) (face : Face) (excl : List String) :
    Nat → List Nat
  | 0 => []
  | n + 1 =>
    let prev := acceptedUpTo compound_filter face excl n
    let cface := compound_filter.Faces.getD n face
    if containsOkTrue (is_face_in_face cface face default_tol) &&
        !(decide (faceIdxName n ∈ excl)) &&
        prev.all (fun j =>
          !(containsOkTrue (is_face_in_face cface (compound_filter.Faces.getD j face) default_tol)))
    then prev ++ [n] else prev

/-- A FreeCAD `MeshGroup` object: its `Label`, the `mesh_size` property
added by `create_mesh_group_and_set_mesh_size`, and the tuple of
compound-filter entity names in `References[0][1]`. -/
structure MeshGroup where
  Label : String
  mesh_size : Option ℚ
  References : List String
deriving DecidableEq

/-- The FreeCAD document as a heap of mesh-group objects; object identity in
Python becomes the index into `objs` (allocation appends). -/
structure Doc where
  objs : List MeshGroup
deriving DecidableEq

/-- In-place update of one list element (no-op when out of range, which the
source never is on the runs considered here — Python would raise). -/
def listModify {α : Type} (f : α → α) : Nat → List α → List α
  | _, [] => []
  | 0, a :: rest => f a :: rest
  | n + 1, a :: rest => a :: listModify f n rest

/-- Replace the element at an index (no-op when out of range). -/
def listSet {α : Type} (l : List α) (n : Nat) (a : α) : List α :=
  listModify (fun _ => a) n l

/-- Read a heap object (a dummy group when out of range). -/
def getObj (doc : Doc) (i : Nat) : MeshGroup :=
  doc.objs.getD i ⟨"", none, []⟩

/-- Apply `f` to the heap object at `i`. -/
def modifyObj (doc : Doc) (i : Nat) (f : MeshGroup → MeshGroup) : Doc :=
  ⟨listModify f i doc.objs⟩

/-- Embeds `create_mesh_group_and_set_mesh_size(mesh_object, doc, name,
mesh_size)`: allocates a fresh group labelled `name` with the given mesh
size (its `References` not yet assigned, modelled as `[]`), returning the
new heap and the object id. -/
def create_mesh_group_and_set_mesh_size (doc : Doc) (name : String)
    (mesh_size : Option ℚ) : Doc × Nat :=
  (⟨doc.objs ++ [⟨name, mesh_size, []⟩]⟩, doc.objs.length)

/-- Python-dict lookup in an association list where the most recent binding
is at the front. -/
def alookup {α : Type} [DecidableEq α] {β : Type} (l : List (α × β)) (a : α) : Option β :=
  match l with
  | [] => none
  | (k, v) :: rest => if k = a then some v else alookup rest a

/-- A face entity dict `{'name': ..., 'geometric object': ..., 'mesh size': ...}`. -/
structure FaceEntity where
  name : String
  geom : Face
  mesh_size : Option ℚ

/-- The mutable state threaded through `merge_boundaries` and
`find_boundaries_with_entities_dict`: the document heap, `face_name_list`,
`surface_objs` (object ids, same order as `face_name_list`) and
`surface_objs_by_compound_face_names`. -/
structure BState where
  doc : Doc
  face_name_list : List String
  surface_objs : List Nat
  byCface : List (String × Nat)

/-- One iteration of the `for cface_name in compound_face_names` loop of
`merge_boundaries`, carrying the current `surface_object` and
`filtered_compound_faces`. -/
def merge_boundaries_step (face_entity_dict : FaceEntity)
    (st : BState) (surface_object : Option Nat) (filtered : List String)
    (cface_name : String) : BState × Option Nat × List String :=
  match alookup st.byCface cface_name with
  | some surf_obj =>
    let old_face_name := (getObj st.doc surf_obj).Label
    let new_face_name := old_face_name ++ "_" ++ face_entity_dict.name
    let old_found_cface_names := (getObj st.doc surf_obj).References
    let filtered_old_found_cface_names :=
      old_found_cface_names.filter (fun cfname_i => cfname_i ≠ cface_name)
    if filtered_old_found_cface_names = [] then
      -- existing mesh object with new label, update name in face_name_list
      let doc' := modifyObj st.doc surf_obj (fun g => { g with Label := new_face_name })
      let index_found := st.face_name_list.indexOf old_face_name
      ({ st with doc := doc',
                 face_name_list := listSet st.face_name_list index_found new_face_name },
       surface_object, filtered)
    else
      -- update references for existing mesh group
      let doc' := modifyObj st.doc surf_obj
        (fun g => { g with References := filtered_old_found_cface_names })
      if new_face_name ∈ st.face_name_list then
        -- add merged boundary to existing mesh group
        let surface_index := st.face_name_list.indexOf new_face_name
        let target := st.surface_objs.getD surface_index 0
        let doc'' := modifyObj doc' target
          (fun g => { g with References := g.References ++ [cface_name] })
        ({ st with doc := doc'' }, surface_object, filtered)
      else
        -- create new mesh group for merged boundary
        let created := create_mesh_group_and_set_mesh_size doc' new_face_name
          face_entity_dict.mesh_size
        let doc'' := modifyObj created.1 created.2
          (fun g => { g with References := [cface_name] })
        (⟨doc'', st.face_name_list ++ [new_face_name],
          st.surface_objs ++ [created.2], (cface_name, created.2) :: st.byCface⟩,
         surface_object, filtered)
  | none =>
    match surface_object with
    | some so =>
      ({ st with byCface := (cface_name, so) :: st.byCface },
       surface_object, filtered ++ [cface_name])
    | none =>
      -- create new mesh group only once if needed
      let created := create_mesh_group_and_set_mesh_size st.doc face_entity_dict.name
        face_entity_dict.mesh_size
      ({ st with doc := created.1, byCface := (cface_name, created.2) :: st.byCface },
       some created.2, filtered ++ [cface_name])

/-- Embeds `merge_boundaries(...)`: folds `merge_boundaries_step` over the
compound face names, returning the state, the (possibly created) surface
object and the filtered compound names. -/
def merge_boundaries (face_entity_dict : FaceEntity) (compound_face_names : List String)
    (surface_object : Option Nat) (st : BState) : BState × Option Nat × List String :=
  compound_face_names.foldl
    (fun acc cface_name =>
      merge_boundaries_step face_entity_dict acc.1 acc.2.1 acc.2.2 cface_name)
    (st, surface_object, [])

/-- The state of `find_boundaries_with_entities_dict`: the reconciler state
plus `all_found_cface_names` (only consulted in separate-boundaries mode). -/
structure FBState where
  bstate : BState
  all_found : List String

/-- One iteration of the `for num, face in enumerate(entities_dict['faces'])`
loop of `find_boundaries_with_entities_dict`. -/
def fbwed_step (compound_filter : CompoundFilter) (separate_boundaries : Bool)
    (st : FBState) (face : FaceEntity) : Except String FBState :=
  if face.name ∈ st.bstate.face_name_list then
    -- Old name, do not create new MeshGroup
    let index_found := st.bstate.face_name_list.indexOf face.name
    let obj_id := st.bstate.surface_objs.getD index_found 0
    let found_cface_names := (getObj st.bstate.doc obj_id).References
    match (if separate_boundaries then
             find_compound_filter_boundaries compound_filter face.geom (some st.all_found)
           else find_compound_filter_boundaries compound_filter face.geom none) with
    | .error e => .error e
    | .ok cface_names =>
      let all_found' := if separate_boundaries then st.all_found ++ cface_names else st.all_found
      let res := merge_boundaries face cface_names (some obj_id) st.bstate
      -- source order: merge_boundaries(..., cface_names, ...) with the entity dict;
      -- res = (state, surface_obj, filtered_cface_names)
      let st' := res.1
      let filtered := res.2.2
      if filtered = [] then .ok ⟨st', all_found'⟩
      else
        let doc'' := modifyObj st'.doc obj_id
          (fun g => { g with References := found_cface_names ++ filtered })
        .ok ⟨{ st' with doc := doc'' }, all_found'⟩
  else
    -- New name, create new MeshGroup
    match (if separate_boundaries then
             find_compound_filter_boundaries compound_filter face.geom (some st.all_found)
           else find_compound_filter_boundaries compound_filter face.geom none) with
    | .error e => .error e
    | .ok cface_names =>
      -- `all_found_cface_names` is a list (never `None`), so the source's
      -- `if all_found_cface_names is not None` extend always runs; in
      -- separate mode the names are therefore appended twice.
      let all_found' := (if separate_boundaries then st.all_found ++ cface_names else st.all_found)
        ++ cface_names
      let res := merge_boundaries face cface_names none st.bstate
      let st' := res.1
      let surface_obj := res.2.1
      let filtered := res.2.2
      if filtered = [] then .ok ⟨st', all_found'⟩
      else
        match surface_obj with
        | none => .ok ⟨st', all_found'⟩  -- unreachable: filtered nonempty creates the group
        | some so =>
          let doc'' := modifyObj st'.doc so (fun g => { g with References := filtered })
          let bs : BState := ⟨doc'', st'.face_name_list ++ [face.name],
            st'.surface_objs ++ [so], st'.byCface⟩
          .ok ⟨bs, all_found'⟩

/-- Embeds `find_boundaries_with_entities_dict(mesh_object, compound_filter,
entities_dict, doc, separate_boundaries)`, starting from an empty document;
the result carries the final heap, `face_name_list`, `surface_objs` and
name-tracking tables. -/
def find_boundaries_with_entities_dict (compound_filter : CompoundFilter)
    (faces : List FaceEntity) (separate_boundaries : Bool) : Except String FBState :=
  faces.foldlM (fun st face => fbwed_step compound_filter separate_boundaries st face)
    (⟨⟨⟨[]⟩, [], [], []⟩, []⟩ : FBState)

/-- A generic entity dict `{'name', 'geometric object', 'mesh size'}` whose
geometry is an opaque kernel handle (modelled by an id). -/
structure GEntity where
  name : String
  geom : Nat
  mesh_size : Option ℚ
deriving DecidableEq

/-- An entities dict (entity registry).  The `transfinite_mesh_params` block
is opaque to the merge (an id), `none` when absent or falsy. -/
structure EntitiesDict where
  name : String
  faces : List GEntity
  solids : List GEntity
  main_object : Option Nat
  transfinite_mesh_params : Option Nat
deriving DecidableEq

/-- The dict returned by `merge_entities_dicts`. -/
structure MergedEntitiesDict where
  name : String
  faces : List GEntity
  solids : List GEntity
  transfinite_mesh_params : List Nat
deriving DecidableEq

/-- Embeds `add_entity_in_list(entity_list, name, geom_object, mesh_sizes)`
as a pure append; `mesh_sizes` is an optional mapping from entity names to
sizes with a `'mesh size'` fallback key. -/
def add_entity_in_list (entity_list : List GEntity) (name : String) (geom_object : Nat)
    (mesh_sizes : Option (List (String × Option ℚ))) : List GEntity :=
  let mesh_size :=
    match mesh_sizes with
    | none => none
    | some ms =>
      match alookup ms name with
      | some v => v
      | none =>
        match alookup ms "mesh size" with
        | some v => v
        | none => none
  entity_list ++ [⟨name, geom_object, mesh_size⟩]

/-- The face part of one dict iteration of `merge_entities_dicts`: mutates
the input face entity's mesh size in place (`face['mesh size'] =
default_mesh_size` when unset), then appends the prefixed entity to the
output list.  Returns (output list, mutated input entity). -/
def merge_one_face (dict_name : String) (prefix_faces : Bool) (default_mesh_size : Option ℚ)
    (faces_out : List GEntity) (face : GEntity) : List GEntity × GEntity :=
  let face' : GEntity :=
    { face with mesh_size := match face.mesh_size with
        | none => default_mesh_size
        | some v => some v }
  let face_name := if prefix_faces then dict_name ++ "_" ++ face.name else face.name
  (add_entity_in_list faces_out face_name face'.geom (some [("mesh size", face'.mesh_size)]),
   face')

/-- The solid part of one dict iteration of `merge_entities_dicts`
(name computed before the in-place mesh-size update, as in the source). -/
def merge_one_solid (dict_name : String) (prefix_solids : Bool) (default_mesh_size : Option ℚ)
    (solids_out : List GEntity) (solid : GEntity) : List GEntity × GEntity :=
  let solid_name := if prefix_solids then dict_name ++ "_" ++ solid.name else solid.name
  let solid' : GEntity :=
    { solid with mesh_size := match solid.mesh_size with
        | none => default_mesh_size
        | some v => some v }
  (add_entity_in_list solids_out solid_name solid'.geom (some [("mesh size", solid'.mesh_size)]),
   solid')

/-- Fold of `merge_one_face` over a dict's face list. -/
def merge_faces_fold (dict_name : String) (prefix_faces : Bool)
    (default_mesh_size : Option ℚ) (faces_out : List GEntity) :
    List GEntity → List GEntity × List GEntity
  | [] => (faces_out, [])
  | face :: rest =>
    let r := merge_one_face dict_name prefix_faces default_mesh_size faces_out face
    let rr := merge_faces_fold dict_name prefix_faces default_mesh_size r.1 rest
    (rr.1, r.2 :: rr.2)

/-- Fold of `merge_one_solid` over a dict's solid list. -/
def merge_solids_fold (dict_name : String) (prefix_solids : Bool)
    (default_mesh_size : Option ℚ) (solids_out : List GEntity) :
    List GEntity → List GEntity × List GEntity
  | [] => (solids_out, [])
  | solid :: rest =>
    let r := merge_one_solid dict_name prefix_solids default_mesh_size solids_out solid
    let rr := merge_solids_fold dict_name prefix_solids default_mesh_size r.1 rest
    (rr.1, r.2 :: rr.2)

/-- The dict loop of `merge_entities_dicts`, threading the three output
lists and returning the mutated input dicts. -/
def merge_dicts_fold (prefix_solids prefix_faces : Bool) (default_mesh_size : Option ℚ)
    (faces_out solids_out : List GEntity) (params_out : List Nat) :
    List EntitiesDict → (List GEntity × List GEntity × List Nat) × List EntitiesDict
  | [] => ((faces_out, solids_out, params_out), [])
  | d :: rest =>
    let fr := merge_faces_fold d.name prefix_faces default_mesh_size faces_out d.faces
    let sr := merge_solids_fold d.name prefix_solids default_mesh_size solids_out d.solids
    let params_out' :=
      match d.transfinite_mesh_params with
      | some t => params_out ++ [t]
      | none => params_out
    let rr := merge_dicts_fold prefix_solids prefix_faces default_mesh_size
      fr.1 sr.1 params_out' rest
    (rr.1, { d with faces := fr.2, solids := sr.2 } :: rr.2)

/-- Embeds `merge_entities_dicts(entities_dicts, name, default_mesh_size,
add_prefixes)`.  `add_prefixes` is `(solids_flag, faces_flag)`, defaulting to
`(False, True)` when `None`.  Besides the merged output dict, the result's
second component is the post-call state of the input dicts, which the source
mutates in place (unset mesh sizes overwritten with the default). -/
def merge_entities_dicts (entities_dicts : List EntitiesDict) (name : String)
    (default_mesh_size : Option ℚ) (add_prefixes : Option (Bool × Bool)) :
    MergedEntitiesDict × List EntitiesDict :=
  let prefixes := match add_prefixes with
    | none => (false, true)
    | some p => p
  let r := merge_dicts_fold prefixes.1 prefixes.2 default_mesh_size [] [] [] entities_dicts
  (⟨name, r.1.1, r.1.2.1, r.1.2.2⟩, r.2)

/-- Fill an unset mesh size with the default (specification side: the
in-place effect `if e['mesh size'] is None: e['mesh size'] = default`). -/
def fillMeshSize (default_mesh_size : Option ℚ) (e : GEntity) : GEntity :=
  { e with mesh_size := match e.mesh_size with
      | none => default_mesh_size
      | some v => some v }

/-- The post-merge state of one input registry (specification side): every
face and solid entry with an unset mesh size gets the default written into
it; nothing else changes. -/
def dictAfterMerge (default_mesh_size : Option ℚ) (d : EntitiesDict) : EntitiesDict :=
  { d with faces := d.faces.map (fillMeshSize default_mesh_size),
           solids := d.solids.map (fillMeshSize default_mesh_size) }

/-- Decidable equality for `Except` results (not derived by core). -/
instance instDecEqExcept {ε α : Type} [DecidableEq ε] [DecidableEq α] :
    DecidableEq (Except ε α) := fun a b =>
  match a, b with
  | .error e, .error f =>
    if h : e = f then .isTrue (by rw [h]) else .isFalse (fun hh => by cases hh; exact h rfl)
  | .error _, .ok _ => .isFalse (fun hh => by cases hh)
  | .ok _, .error _ => .isFalse (fun hh => by cases hh)
  | .ok x, .ok y =>
    if h : x = y then .isTrue (by rw [h]) else .isFalse (fun hh => by cases hh; exact h rfl)

/-- The default mesh group used for out-of-range heap reads. -/
def mgDflt : MeshGroup := ⟨"", none, []⟩

/-- The name-table bindings added by a run of `merge_boundaries` over fresh
compound face names: each name bound to group `g`, most recent first. -/
def pushAll (cfaces : List String) (g : Nat) (m : List (String × Nat)) :
    List (String × Nat) :=
  cfaces.foldl (fun acc c => (c, g) :: acc) m

/-- First-occurrence deduplication of a name list (the order in which
`find_boundaries_with_entities_dict` first meets each entity name). -/
def dedupFirst (l : List String) : List String :=
  l.foldl (fun acc n => if n ∈ acc then acc else acc ++ [n]) []

/-- The entity names of a resolved prefix. -/
def entityNames (done : List (FaceEntity × List String)) : List String :=
  done.map (fun p => p.1.name)

/-- All compound-filter face names resolved so far for entities named `nm`,
in contribution order. -/
def refsOf (done : List (FaceEntity × List String)) (nm : String) : List String :=
  ((done.filter (fun p => decide (p.1.name = nm))).map (fun p => p.2)).flatten

/-- The mesh size of the first entity named `nm` in the prefix. -/
def firstMesh (done : List (FaceEntity × List String)) (nm : String) : Option ℚ :=
  match done.find? (fun p => decide (p.1.name = nm)) with
  | some p => p.1.mesh_size
  | none => none

/-- Invariant of the boundary reconciler on inputs whose resolved
compound-face lists are pairwise disjoint (the disjoint-solids regime):
after processing the prefix `done`, the tracked names are the entity names
in first-occurrence order, the surface objects are the heap ids `0, 1, ...`
in that order, group `k` is labelled with the `k`-th name and owns exactly
the faces resolved for entities of that name, and the name table only
mentions already-resolved compound faces. -/
def C3Inv (done : List (FaceEntity × List String)) (st : FBState) : Prop :=
  st.bstate.face_name_list = dedupFirst (entityNames done) ∧
  st.bstate.surface_objs = List.range (dedupFirst (entityNames done)).length ∧
  st.bstate.doc.objs.length = (dedupFirst (entityNames done)).length ∧
  (∀ k, k < (dedupFirst (entityNames done)).length →
    getObj st.bstate.doc k =
      ⟨(dedupFirst (entityNames done)).getD k "",
       firstMesh done ((dedupFirst (entityNames done)).getD k ""),
       refsOf done ((dedupFirst (entityNames done)).getD k "")⟩) ∧
  (∀ c k, alookup st.bstate.byCface c = some k → ∃ p ∈ done, c ∈ p.2)

/-- The partition property of the reconciler output (claim side): group
labels are pairwise distinct, distinct groups own disjoint compound-face
sets, a compound face is owned by some group exactly when some input entity
resolved to it, and — the inputs covering every compound-filter face — a
name is owned by some group exactly when it is one of the compound filter's
face names: the groups' reference sets partition the ENTIRE compound-filter
face index set, with no omissions and no overlaps. -/
def ReconcilerPartition (cf : CompoundFilter) (rs : List (FaceEntity × List String))
    (st : FBState) : Prop :=
  (st.bstate.doc.objs.map MeshGroup.Label).Nodup ∧
  (∀ i j, i < st.bstate.doc.objs.length → j < st.bstate.doc.objs.length → i ≠ j →
    ∀ s, s ∈ (getObj st.bstate.doc i).References →
      s ∉ (getObj st.bstate.doc j).References) ∧
  (∀ s, (∃ g ∈ st.bstate.doc.objs, s ∈ g.References) ↔ ∃ p ∈ rs, s ∈ p.2) ∧
  (∀ s, (∃ g ∈ st.bstate.doc.objs, s ∈ g.References) ↔
    ∃ i, i < cf.Faces.length ∧ s = faceIdxName i)

/-- The origin. -/
def origin : Vec := ⟨0, 0, 0⟩

/-- A concrete compound-filter face for tests: no vertices, parametric
square `[0,10] × [0,10]`, whose close-to-edge probe deterministically yields
the designated witness point `p` (`valueAt 1 1 = p`). -/
def probeFace (p : Vec) : Face where
  Vertexes := []
  CenterOfMass := p
  ParameterRange := (0, 10, 0, 10)
  valueAt := fun u v => ⟨p.x + u - 1, p.y + v - 1, p.z⟩
  isPartOfDomain := fun _ _ => true
  isInside := fun _ _ _ => false
  Edges := []

/-- A concrete query face for tests whose kernel inside-test accepts exactly
the points in `pts` (so it "contains" the probe faces whose witness points
are listed). -/
def containerFace (pts : List Vec) : Face where
  Vertexes := []
  CenterOfMass := origin
  ParameterRange := (0, 0, 0, 0)
  valueAt := fun _ _ => origin
  isPartOfDomain := fun _ _ => false
  isInside := fun v _ _ => decide (v ∈ pts)
  Edges := []

/-- A face with vertices only (for the vertex-count comparators). -/
def plainFace (vs : List Vec) (com : Vec) : Face where
  Vertexes := vs
  CenterOfMass := com
  ParameterRange := (0, 0, 0, 0)
  valueAt := fun _ _ => origin
  isPartOfDomain := fun _ _ => false
  isInside := fun _ _ _ => false
  Edges := []

/-- A face none of whose parameter samples belong to the domain (e.g. an
empty parametric domain): every witness-point probe fails. -/
def noDomainFace : Face where
  Vertexes := []
  CenterOfMass := origin
  ParameterRange := (0, 10, 0, 10)
  valueAt := fun _ _ => origin
  isPartOfDomain := fun _ _ => false
  isInside := fun _ _ _ => false
  Edges := []

/-- The designated witness point of the `n`-th concrete probe face. -/
def probePoint (n : Nat) : Vec := ⟨(n : ℚ), 0, 0⟩

/-- Concrete compound filter with five probe faces (face names `Face1` ...
`Face5`). -/
def cfFive : CompoundFilter :=
  ⟨[probeFace (probePoint 1), probeFace (probePoint 2), probeFace (probePoint 3),
    probeFace (probePoint 4), probeFace (probePoint 5)], []⟩

/-- Concrete compound filter with six probe faces. -/
def cfSix : CompoundFilter :=
  ⟨[probeFace (probePoint 1), probeFace (probePoint 2), probeFace (probePoint 3),
    probeFace (probePoint 4), probeFace (probePoint 5), probeFace (probePoint 6)], []⟩

/-- Concrete compound filter with two probe faces. -/
def cfTwo : CompoundFilter :=
  ⟨[probeFace (probePoint 1), probeFace (probePoint 2)], []⟩

/-- Concrete face whose vertex list has two distinct vertices within the
default tolerance of each other (distance `1/20000 < 1e-4`). -/
def nearDupFace : Face :=
  plainFace [⟨0, 0, 0⟩, ⟨0, 0, 1 / 20000⟩, ⟨1, 0, 0⟩] origin

/-- Concrete face with two far-apart vertices (used to witness reflexivity
under the pairwise-far hypothesis). -/
def farVertexFace : Face :=
  plainFace [⟨0, 0, 0⟩, ⟨1, 0, 0⟩] origin

/-- A single-vertex face at the origin, for the single-match locator tests. -/
def vertFace : Face := plainFace [origin] origin

/-- A single-face solid built on `vertFace`. -/
def vertSolid : Solid := ⟨[vertFace]⟩

/-- Compound filter whose two faces both match `vertFace` (last match must
win). -/
def cfRepeat : CompoundFilter := ⟨[vertFace, vertFace], [vertSolid, vertSolid]⟩

/-- First point of the `pointsEqual` counterexample: `(10000, 0, 0)`. -/
def pC7 : Vec := ⟨10000, 0, 0⟩

/-- Second point of the `pointsEqual` counterexample: `(10000.5, 0, 0)`. -/
def qC7 : Vec := ⟨20001 / 2, 0, 0⟩

/-- First edge of the `edgesEqual` counterexample: endpoints `0` and `0.6`
on the x axis. -/
def edgeC8a : Edge := ⟨⟨0, 0, 0⟩, ⟨3 / 5, 0, 0⟩, fun _ => 0⟩

/-- Second edge of the `edgesEqual` counterexample: endpoints `0.5` and
`-0.5` on the x axis. -/
def edgeC8b : Edge := ⟨⟨1 / 2, 0, 0⟩, ⟨-(1 / 2), 0, 0⟩, fun _ => 0⟩

/-- Both vectors of squared norm zero are the zero vector, so `sqNorm` is
nonnegative. -/
theorem sqNorm_nonneg (v : Vec) : 0 ≤ sqNorm v := by
  unfold sqNorm
  positivity

/-- Propositional characterisation of `vectors_are_same`. -/
theorem vectors_are_same_true_iff (v1 v2 : Vec) (tol : ℚ) :
    vectors_are_same v1 v2 tol = true ↔
      sqNorm (vsub v1 v2) = 0 ∨ (sqNorm (vsub v1 v2) ≤ tol ^ 2 ∧ 0 ≤ tol) := by
  simp [vectors_are_same]

/-- The rational test in `vectors_are_same` agrees with the literal source
comparison `isclose(Length, 0., abs_tol=tol)` over the reals, where `Length`
is the square root of the squared norm: `|L - 0| <= max(1e-4 * max(|L|, |0|), tol)`. -/
theorem vectors_are_same_eq_isclose_length (v1 v2 : Vec) (tol : ℚ) :
    vectors_are_same v1 v2 tol = true ↔
      |Real.sqrt ((sqNorm (vsub v1 v2) : ℝ)) - 0| ≤
        max ((1 / 10000) * max |Real.sqrt ((sqNorm (vsub v1 v2) : ℝ))| |(0 : ℝ)|)
          (tol : ℝ) := by
  have hs : (0 : ℝ) ≤ ((sqNorm (vsub v1 v2) : ℚ) : ℝ) := by
    exact_mod_cast sqNorm_nonneg (vsub v1 v2)
  have hsq : 0 ≤ Real.sqrt ((sqNorm (vsub v1 v2) : ℝ)) := Real.sqrt_nonneg _
  rw [sub_zero, abs_of_nonneg hsq, abs_zero, max_eq_left hsq,
    vectors_are_same_true_iff]
  by_cases h0 : sqNorm (vsub v1 v2) = 0
  · have : ((sqNorm (vsub v1 v2) : ℚ) : ℝ) = 0 := by exact_mod_cast h0
    rw [this, Real.sqrt_zero]
    simp only [h0, true_or, true_iff, mul_zero]
    exact le_max_left 0 _
  · have hpos : (0 : ℝ) < ((sqNorm (vsub v1 v2) : ℚ) : ℝ) := by
      rcases lt_or_eq_of_le hs with h | h
      · exact h
      · exact absurd (by exact_mod_cast h.symm) h0
    have hsqpos : 0 < Real.sqrt ((sqNorm (vsub v1 v2) : ℝ)) := Real.sqrt_pos.mpr hpos
    constructor
    · rintro (h | ⟨hle, htol⟩)
      · exact absurd h h0
      · refine le_trans ?_ (le_max_right _ ((tol : ℝ)))
        have h1 : ((sqNorm (vsub v1 v2) : ℚ) : ℝ) ≤ ((tol : ℝ)) ^ 2 := by
          exact_mod_cast hle
        have h2 : (0 : ℝ) ≤ (tol : ℝ) := by exact_mod_cast htol
        calc Real.sqrt ((sqNorm (vsub v1 v2) : ℝ)) ≤ Real.sqrt (((tol : ℝ)) ^ 2) :=
              Real.sqrt_le_sqrt h1
          _ = (tol : ℝ) := Real.sqrt_sq h2
    · intro h
      rcases le_max_iff.mp h with h | h
      · nlinarith [hsqpos]
      · right
        obtain ⟨htol, hle⟩ := Real.sqrt_le_iff.mp h
        constructor
        · exact_mod_cast hle
        · exact_mod_cast htol

/-- C7, amended.  `vectors_are_same` (the source `pointsEqual`) holds iff
the single Euclidean-distance check `isclose(|p - q|, 0, rel_tol=1e-4,
abs_tol=tol)` holds, i.e. distance <= max(1e-4 * distance, tol): the
relative-tolerance term scales with the distance itself (the second
`isclose` argument being `0`), not with the magnitudes of the two points;
the check is a single test on the length of the vector difference, not
per axis. -/
theorem claim_C7_amended (p q : Vec) (tol : ℚ) :
    vectors_are_same p q tol = true ↔
      Real.sqrt ((sqNorm (vsub p q) : ℝ)) ≤
        max ((1 / 10000) * Real.sqrt ((sqNorm (vsub p q) : ℝ))) (tol : ℝ) := by
  have h := vectors_are_same_eq_isclose_length p q tol
  have hsq : 0 ≤ Real.sqrt ((sqNorm (vsub p q) : ℝ)) := Real.sqrt_nonneg _
  rwa [sub_zero, abs_of_nonneg hsq, abs_zero, max_eq_left hsq] at h

/-- C7, counterexample to the claim as stated: at `p = (10000,0,0)`,
`q = (10000.5,0,0)`, `tol = 1e-4`, the claimed bound
`distance <= max(1e-4 * max(|p|,|q|), tol)` holds (distance `0.5`, bound
`1.00005`), yet `vectors_are_same` returns `False`. -/
theorem claim_C7_counterexample :
    pointsEqualClaimFormula pC7 qC7 default_tol ∧
      vectors_are_same pC7 qC7 default_tol = false := by
  constructor
  · unfold pointsEqualClaimFormula
    have h1 : ((sqNorm (vsub pC7 qC7) : ℚ) : ℝ) = ((1 : ℝ) / 2) ^ 2 := by
      norm_num [sqNorm, vsub, pC7, qC7]
    have h2 : ((sqNorm pC7 : ℚ) : ℝ) = ((10000 : ℝ)) ^ 2 := by
      norm_num [sqNorm, pC7]
    have h3 : ((sqNorm qC7 : ℚ) : ℝ) = ((20001 : ℝ) / 2) ^ 2 := by
      norm_num [sqNorm, qC7]
    rw [h1, h2, h3, Real.sqrt_sq (by norm_num), Real.sqrt_sq (by norm_num),
      Real.sqrt_sq (by norm_num)]
    rw [show max (10000 : ℝ) (20001 / 2) = 20001 / 2 by norm_num]
    refine le_trans ?_ (le_max_left _ _)
    norm_num
  · rw [← Bool.not_eq_true, vectors_are_same_true_iff]
    norm_num [sqNorm, vsub, pC7, qC7, default_tol]

/-- C8, amended.  `is_same_edge` matches same-order endpoints, and matches
swapped endpoints only when the first endpoints do not match: it equals
`(A && B) || (!A && C && D)` where `A, B` compare the endpoints in order and
`C, D` swapped — not the claimed undirected identity `(A && B) || (C && D)`. -/
theorem claim_C8_amended (edge1 edge2 : Edge) (tolerance : ℚ) :
    is_same_edge edge1 edge2 tolerance =
      ((is_same_vertices edge1.v0 edge2.v0 tolerance &&
          is_same_vertices edge1.v1 edge2.v1 tolerance) ||
        (!(is_same_vertices edge1.v0 edge2.v0 tolerance) &&
          is_same_vertices edge1.v0 edge2.v1 tolerance &&
          is_same_vertices edge1.v1 edge2.v0 tolerance)) := by
  unfold is_same_edge
  cases h0 : is_same_vertices edge1.v0 edge2.v0 tolerance <;>
    cases h1 : is_same_vertices edge1.v0 edge2.v1 tolerance <;>
      simp [h0, h1]

/-- C8, counterexample to the claim as stated: with tolerance `1`, the edges
`(0, 0.6)` and `(0.5, -0.5)` (x coordinates) match as undirected vertex sets
(`0` matches `-0.5`, `0.6` matches `0.5`), yet `is_same_edge` returns
`False`: since the first endpoints `0` and `0.5` match, only the same-order
comparison `0.6` vs `-0.5` is attempted, and it fails. -/
theorem claim_C8_counterexample :
    edgesEqualSpec edgeC8a edgeC8b 1 = true ∧ is_same_edge edgeC8a edgeC8b 1 = false := by
  constructor
  · simp only [edgesEqualSpec, edgeC8a, edgeC8b, is_same_vertices]
    norm_num [abs_lt]
  · simp only [is_same_edge, edgeC8a, edgeC8b, is_same_vertices]
    norm_num [abs_lt, le_abs]

/-- The squared norm of a difference is symmetric. -/
theorem sqNorm_vsub_comm (v w : Vec) : sqNorm (vsub v w) = sqNorm (vsub w v) := by
  simp only [sqNorm, vsub]
  ring

/-- `vectors_are_same` is reflexive (for every tolerance). -/
theorem vectors_are_same_self (v : Vec) (tol : ℚ) : vectors_are_same v v tol = true := by
  rw [vectors_are_same_true_iff]
  left
  simp [vsub, sqNorm]

/-- `vectors_are_same` is symmetric. -/
theorem vectors_are_same_symm (v w : Vec) (tol : ℚ) :
    vectors_are_same v w tol = vectors_are_same w v tol := by
  unfold vectors_are_same
  rw [sqNorm_vsub_comm]

/-- Exchanging the two summation orders of a pairwise count. -/
theorem sum_countP_comm {α β : Type} (p : α → β → Bool) :
    ∀ (l2 : List α) (l1 : List β),
      ((l2.map (fun a => l1.countP (p a))).sum =
        (l1.map (fun b => l2.countP (fun a => p a b))).sum) := by
  intro l2
  induction l2 with
  | nil =>
    intro l1
    simp
  | cons a l2 ih =>
    intro l1
    have hrow : ∀ l1' : List β, (l1'.map (fun b => if p a b then 1 else 0)).sum
        = l1'.countP (p a) := by
      intro l1'
      induction l1' with
      | nil => simp
      | cons b l1' ih' =>
        simp only [List.map_cons, List.sum_cons, List.countP_cons, ih']
        by_cases h : p a b <;> simp [h] <;> omega
    simp only [List.map_cons, List.sum_cons, ih l1]
    have : (l1.map (fun b => (a :: l2).countP (fun a' => p a' b))).sum
        = (l1.map (fun b => l2.countP (fun a' => p a' b) + if p a b then 1 else 0)).sum := by
      refine congrArg List.sum (List.map_congr_left ?_)
      intro b _
      rw [List.countP_cons]
    rw [this, List.sum_map_add, hrow l1]
    omega

/-- The pair count of `faces_have_same_vertices` is symmetric. -/
theorem countMatchingPairs_symm (face1 face2 : Face) (tolerance : ℚ) :
    countMatchingPairs face1 face2 tolerance = countMatchingPairs face2 face1 tolerance := by
  unfold countMatchingPairs
  rw [sum_countP_comm (fun a b => vectors_are_same a b tolerance) face2.Vertexes face1.Vertexes]
  refine congrArg List.sum (List.map_congr_left ?_)
  intro b _
  exact List.countP_congr (fun a _ => by rw [vectors_are_same_symm])

/-- `faces_have_same_vertices` is symmetric. -/
theorem faces_have_same_vertices_symm (face1 face2 : Face) (tolerance : ℚ) :
    faces_have_same_vertices face1 face2 tolerance =
      faces_have_same_vertices face2 face1 tolerance := by
  unfold faces_have_same_vertices
  rw [countMatchingPairs_symm]
  exact Bool.and_comm _ _

/-- `faces_are_same` is symmetric. -/
theorem faces_are_same_symm (face1 face2 : Face) (tolerance : ℚ) :
    faces_are_same face1 face2 tolerance = faces_are_same face2 face1 tolerance := by
  unfold faces_are_same faces_same_center_of_masses
  rw [vectors_are_same_symm, faces_have_same_vertices_symm]

/-- On a vertex list whose distinct entries are pairwise non-close, each
vertex matches only itself, so the pair count is the length. -/
theorem countMatchingPairs_self_of_pairwise (tolerance : ℚ) :
    ∀ V : List Vec, V.Pairwise (fun a b => vectors_are_same a b tolerance = false) →
      ((V.map (fun v => V.countP (fun cv => vectors_are_same v cv tolerance))).sum
        = V.length) := by
  intro V
  induction V with
  | nil => simp
  | cons a rest ih =>
    intro hp
    rw [List.pairwise_cons] at hp
    obtain ⟨ha, hrest⟩ := hp
    have h1 : (a :: rest).countP (fun cv => vectors_are_same a cv tolerance) = 1 := by
      rw [List.countP_cons]
      have : rest.countP (fun cv => vectors_are_same a cv tolerance) = 0 :=
        List.countP_eq_zero.mpr (fun b hb => by simp [ha b hb])
      simp [this, vectors_are_same_self]
    have h2 : ∀ v ∈ rest,
        (a :: rest).countP (fun cv => vectors_are_same v cv tolerance)
          = rest.countP (fun cv => vectors_are_same v cv tolerance) := by
      intro v hv
      rw [List.countP_cons]
      have : vectors_are_same v a tolerance = false := by
        rw [vectors_are_same_symm]
        exact ha v hv
      simp [this]
    simp only [List.map_cons, List.sum_cons, h1, List.length_cons]
    rw [List.map_congr_left h2, ih hrest]
    omega

/-- C6, amended.  `faces_are_same` (the source `facesEqual`) is symmetric
for all faces and tolerances, and `faces_are_same f f` is true for every
face `f` whose vertex list is pairwise non-close at the tolerance; without
that proviso reflexivity can fail, because near-coincident vertices make the
pair count of `faces_have_same_vertices` exceed the vertex count. -/
theorem claim_C6_amended (f g : Face) (t : ℚ)
    (hpair : f.Vertexes.Pairwise (fun a b => vectors_are_same a b t = false)) :
    faces_are_same f f t = true ∧ faces_are_same f g t = faces_are_same g f t := by
  constructor
  · unfold faces_are_same faces_same_center_of_masses faces_have_same_vertices
    have hc : countMatchingPairs f f t = f.Vertexes.length :=
      countMatchingPairs_self_of_pairwise t f.Vertexes hpair
    simp [vectors_are_same_self, hc]
  · exact faces_are_same_symm f g t

/-- C6, counterexample to the claim as stated: reflexivity fails on a face
with two distinct vertices within tolerance of each other (`(0,0,0)` and
`(0,0,1/20000)` at the default tolerance `1e-4`): the pair count becomes 5
for 3 vertices and `faces_are_same f f` returns `False`. -/
theorem claim_C6_counterexample : faces_are_same nearDupFace nearDupFace default_tol = false := by
  have hc : countMatchingPairs nearDupFace nearDupFace default_tol = 5 := by
    norm_num [countMatchingPairs, nearDupFace, plainFace, List.countP_cons,
      vectors_are_same, sqNorm, vsub, default_tol]
  have hlen : nearDupFace.Vertexes.length = 3 := by
    norm_num [nearDupFace, plainFace]
  unfold faces_are_same faces_have_same_vertices
  rw [hc, hlen]
  simp

/-- The `find_compound_filter_boundary` scan computes the last matching
index, shifted by the running counter. -/
theorem fcf_boundary_loop_eq (face : Face) :
    ∀ (l : List Face) (num : Nat) (found : Option Nat),
      fcf_boundary_loop face l num found =
        match lastIdxWhere (fun c => faces_have_same_vertices c face default_tol) l with
        | some k => some (num + k)
        | none => found := by
  intro l
  induction l with
  | nil => intro num found; rfl
  | cons c rest ih =>
    intro num found
    rw [fcf_boundary_loop, ih]
    rw [lastIdxWhere]
    cases hrest : lastIdxWhere (fun c => faces_have_same_vertices c face default_tol) rest with
    | some k => simp only []; rw [show num + 1 + k = num + (k + 1) by omega]
    | none =>
      by_cases hc : faces_have_same_vertices c face default_tol = true
      · simp [hc]
      · simp only [Bool.not_eq_true] at hc
        simp [hc]

/-- The `find_compound_filter_solid` scan computes the last matching index,
shifted by the running counter. -/
theorem fcf_solid_loop_eq (solid : Solid) :
    ∀ (l : List Solid) (num : Nat) (found : Option Nat),
      fcf_solid_loop solid l num found =
        match lastIdxWhere (fun c => solids_are_the_same c solid) l with
        | some k => some (num + k)
        | none => found := by
  intro l
  induction l with
  | nil => intro num found; rfl
  | cons c rest ih =>
    intro num found
    rw [fcf_solid_loop, ih]
    rw [lastIdxWhere]
    cases hrest : lastIdxWhere (fun c => solids_are_the_same c solid) rest with
    | some k => simp only []; rw [show num + 1 + k = num + (k + 1) by omega]
    | none =>
      by_cases hc : solids_are_the_same c solid = true
      · simp [hc]
      · simp only [Bool.not_eq_true] at hc
        simp [hc]

/-- `lastIdxWhere` returns `none` exactly when no element satisfies the
predicate. -/
theorem lastIdxWhere_eq_none_iff {α : Type} (p : α → Bool) (l : List α) :
    lastIdxWhere p l = none ↔ ∀ a ∈ l, p a = false := by
  induction l with
  | nil => simp [lastIdxWhere]
  | cons a rest ih =>
    rw [lastIdxWhere]
    cases hrest : lastIdxWhere p rest with
    | some k =>
      simp only []
      constructor
      · intro h; cases h
      · intro h
        have : lastIdxWhere p rest = none := ih.mpr (fun b hb => h b (List.mem_cons_of_mem a hb))
        rw [this] at hrest; cases hrest
    | none =>
      by_cases hc : p a = true
      · simp only [hc, if_true]
        constructor
        · intro h; cases h
        · intro h
          have := h a (List.mem_cons_self a rest)
          rw [hc] at this; cases this
      · simp only [Bool.not_eq_true] at hc
        simp only [hc, Bool.false_eq_true, if_false, true_iff]
        intro b hb
        rcases List.mem_cons.mp hb with rfl | hb
        · exact hc
        · exact (ih.mp hrest) b hb

/-- When some element matches, `lastIdxWhere` is the greatest matching
index. -/
theorem lastIdxWhere_eq_some_of {α : Type} (p : α → Bool) :
    ∀ (l : List α) (i : Nat) (h : i < l.length), p (l.get ⟨i, h⟩) = true →
      (∀ j (hj : j < l.length), i < j → p (l.get ⟨j, hj⟩) = false) →
      lastIdxWhere p l = some i := by
  intro l
  induction l with
  | nil => intro i h; cases h
  | cons a rest ih =>
    intro i h hp hafter
    cases i with
    | zero =>
      have hrest : lastIdxWhere p rest = none := by
        rw [lastIdxWhere_eq_none_iff]
        intro b hb
        obtain ⟨j, hj, rfl⟩ := List.mem_iff_get.mp hb
        exact hafter (j + 1) (by simpa using Nat.succ_lt_succ hj.isLt) (Nat.succ_pos j)
      rw [lastIdxWhere, hrest]
      simp only [List.get] at hp
      simp [hp]
    | succ i' =>
      have hrest : lastIdxWhere p rest = some i' := by
        refine ih i' (by simpa using Nat.lt_of_succ_lt_succ h) ?_ ?_
        · simpa [List.get] using hp
        · intro j hj hij
          have := hafter (j + 1) (by simpa using Nat.succ_lt_succ hj) (Nat.succ_lt_succ hij)
          simpa [List.get] using this
      rw [lastIdxWhere, hrest]

/-- C5.  The single-match locators `find_compound_filter_boundary` and
`find_compound_filter_solid` return the name of the LAST compound-filter
face/solid for which the equality predicate holds (later matches override
earlier ones), and return `None` — a value, not an exception — exactly when
no compound-filter face/solid matches. -/
theorem claim_C5 (cf : CompoundFilter) (face : Face) (solid : Solid) :
    (find_compound_filter_boundary cf face = none ↔
      ∀ c ∈ cf.Faces, faces_have_same_vertices c face default_tol = false) ∧
    (∀ i (h : i < cf.Faces.length),
      faces_have_same_vertices (cf.Faces.get ⟨i, h⟩) face default_tol = true →
      (∀ j (hj : j < cf.Faces.length), i < j →
        faces_have_same_vertices (cf.Faces.get ⟨j, hj⟩) face default_tol = false) →
      find_compound_filter_boundary cf face = some (faceIdxName i)) ∧
    (find_compound_filter_solid cf solid = none ↔
      ∀ c ∈ cf.Solids, solids_are_the_same c solid = false) ∧
    (∀ i (h : i < cf.Solids.length),
      solids_are_the_same (cf.Solids.get ⟨i, h⟩) solid = true →
      (∀ j (hj : j < cf.Solids.length), i < j →
        solids_are_the_same (cf.Solids.get ⟨j, hj⟩) solid = false) →
      find_compound_filter_solid cf solid = some (solidIdxName i)) := by
  refine ⟨?_, ?_, ?_, ?_⟩
  · unfold find_compound_filter_boundary
    rw [fcf_boundary_loop_eq]
    cases hl : lastIdxWhere (fun c => faces_have_same_vertices c face default_tol) cf.Faces with
    | some k =>
      simp only []
      constructor
      · intro h; cases h
      · intro h
        rw [(lastIdxWhere_eq_none_iff _ _).mpr h] at hl; cases hl
    | none =>
      simp only [true_iff]
      exact (lastIdxWhere_eq_none_iff _ _).mp hl
  · intro i h hp hafter
    unfold find_compound_filter_boundary
    rw [fcf_boundary_loop_eq, lastIdxWhere_eq_some_of _ cf.Faces i h hp hafter]
    simp
  · unfold find_compound_filter_solid
    rw [fcf_solid_loop_eq]
    cases hl : lastIdxWhere (fun c => solids_are_the_same c solid) cf.Solids with
    | some k =>
      simp only []
      constructor
      · intro h; cases h
      · intro h
        rw [(lastIdxWhere_eq_none_iff _ _).mpr h] at hl; cases hl
    | none =>
      simp only [true_iff]
      exact (lastIdxWhere_eq_none_iff _ _).mp hl
  · intro i h hp hafter
    unfold find_compound_filter_solid
    rw [fcf_solid_loop_eq, lastIdxWhere_eq_some_of _ cf.Solids i h hp hafter]
    simp

/-- If no parameter sample belongs to the face domain, the close-to-edge
loop never returns a point, for any fuel. -/
theorem gpf_cte_loop_none (face : Face) (p1 : Vec) (u_max v_max : ℚ)
    (h : ∀ u v, face.isPartOfDomain u v = false) :
    ∀ (fuel : Nat) (u v : ℚ), gpf_cte_loop face p1 u_max v_max fuel u v = none := by
  intro fuel
  induction fuel with
  | zero => intro u v; rfl
  | succ n ih =>
    intro u v
    rw [gpf_cte_loop]
    simp only [h, Bool.false_eq_true, if_false]
    split
    · split
      · split
        · exact ih _ _
        · rfl
      · exact ih _ _
    · rfl

/-- If no parameter sample belongs to the face domain, a grid pass finds
nothing. -/
theorem gpf_grid_pass_none (face : Face) (u_min v_min u_split v_split : ℚ)
    (split_count : Nat) (h : ∀ u v, face.isPartOfDomain u v = false) :
    gpf_grid_pass face u_min v_min u_split v_split split_count = none := by
  unfold gpf_grid_pass
  rw [List.findSome?_eq_none_iff]
  intro i _
  rw [List.findSome?_eq_none_iff]
  intro j _
  simp [h]

/-- If no parameter sample belongs to the face domain, the whole grid search
finds nothing. -/
theorem gpf_grid_none (face : Face) (u_min v_min u_len v_len : ℚ)
    (h : ∀ u v, face.isPartOfDomain u v = false) :
    ∀ l : List Nat, gpf_grid face u_min v_min u_len v_len l = none := by
  intro l
  induction l with
  | nil => rfl
  | cons s rest ih =>
    rw [gpf_grid, gpf_grid_pass_none face _ _ _ _ _ h]
    exact ih

/-- C9.  `get_point_from_face` is a total function into `Option` (it cannot
raise): when no in-domain parameter sample exists — in particular for a face
with an empty parametric domain — both the close-to-edge probe and the full
grid search return `None`, the grid search runs exactly the fixed
subdivision sequence 2, 3, 5, ..., 541 of one hundred passes, and each pass
probes `(s-1)²` grid points, at most `541²`. -/
theorem claim_C9 (face : Face) (h : ∀ u v, face.isPartOfDomain u v = false) :
    get_point_from_face face = none ∧
      get_point_from_face_close_to_edge face = none ∧
      primes_list.length = 100 ∧
      ∀ s ∈ primes_list, (s - 1) * (s - 1) ≤ 541 * 541 := by
  have hcte : get_point_from_face_close_to_edge face = none := by
    unfold get_point_from_face_close_to_edge
    exact gpf_cte_loop_none face _ _ _ h _ _ _
  refine ⟨?_, hcte, by decide, by decide⟩
  unfold get_point_from_face
  rw [hcte]
  exact gpf_grid_none face _ _ _ _ h primes_list

/-- C9, witness at the concrete face with an everywhere-false domain test. -/
theorem claim_C9_witness :
    get_point_from_face noDomainFace = none ∧
      get_point_from_face_close_to_edge noDomainFace = none ∧
      primes_list.length = 100 ∧
      ∀ s ∈ primes_list, (s - 1) * (s - 1) ≤ 541 * 541 :=
  claim_C9 noDomainFace (fun _ _ => rfl)

/-- A probe face always yields its designated witness point: the
close-to-edge search hits it at the first parameter step. -/
theorem get_point_from_face_probeFace (p : Vec) :
    get_point_from_face (probeFace p) = some p := by
  have hfuel : cteFuel 0 10 = 20 + 1 := by
    unfold cteFuel
    have h20 : ⌈2 * ((10 : ℚ) - 0)⌉ = (20 : ℤ) := by norm_num
    rw [h20]
    rfl
  unfold get_point_from_face get_point_from_face_close_to_edge
  simp only [probeFace, hfuel]
  rw [gpf_cte_loop]
  norm_num [movedTwoCoords, is_point_on_face_edges, default_tol]

/-- Containment of a probe face in a container face reduces to membership of
the probe's witness point in the container's point set. -/
theorem is_face_in_face_probe_container (p : Vec) (pts : List Vec) :
    is_face_in_face (probeFace p) (containerFace pts) default_tol =
      .ok (decide (p ∈ pts)) := by
  unfold is_face_in_face
  rw [get_point_from_face_probeFace]
  simp [probeFace, containerFace, is_point_inside_face]

/-- A probe face is never inside another probe face (their inside-test is
constantly false). -/
theorem is_face_in_face_probe_probe (p q : Vec) :
    is_face_in_face (probeFace p) (probeFace q) default_tol = .ok false := by
  unfold is_face_in_face
  rw [get_point_from_face_probeFace]
  simp [probeFace, is_point_inside_face]

/-- In non-separate mode (`used_compound_face_names is None`) the
`find_compound_filter_boundaries` loop collects exactly the names of the
contained faces, provided no containment test raises. -/
theorem fcfbs_loop_none_mode (face : Face) :
    ∀ (pairs : List (Nat × Face)) (acc : List String) (found : List Face),
      (∀ pr ∈ pairs, ∃ b, is_face_in_face pr.2 face default_tol = .ok b) →
      fcfbs_loop face none pairs acc found =
        .ok (acc ++ pairs.filterMap (fun pr =>
          if containsOkTrue (is_face_in_face pr.2 face default_tol) then
            some (faceIdxName pr.1) else none)) := by
  intro pairs
  induction pairs with
  | nil =>
    intro acc found _
    simp [fcfbs_loop]
  | cons pr rest ih =>
    intro acc found h
    obtain ⟨b, hb⟩ := h pr (List.mem_cons_self _ _)
    obtain ⟨num, cface⟩ := pr
    rw [fcfbs_loop, hb]
    cases b
    · rw [ih acc found (fun q hq => h q (List.mem_cons_of_mem _ hq))]
      simp [List.filterMap_cons, hb, containsOkTrue]
    · rw [ih (acc ++ [faceIdxName num]) found (fun q hq => h q (List.mem_cons_of_mem _ hq))]
      simp [List.filterMap_cons, hb, containsOkTrue]

/-- Evaluation of `find_compound_filter_boundaries` (non-separate mode) on a
compound filter of probe faces against a container face: the result is the
names of the probes whose witness point the container accepts, or the
`Faces not found` error when there are none. -/
theorem fcfb_probes (ps pts : List Vec) (ss : List Solid) :
    find_compound_filter_boundaries ⟨ps.map probeFace, ss⟩ (containerFace pts) none =
      (if ps.enum.filterMap
          (fun pr => if pr.2 ∈ pts then some (faceIdxName pr.1) else none) = []
       then .error "Faces not found"
       else .ok (ps.enum.filterMap
          (fun pr => if pr.2 ∈ pts then some (faceIdxName pr.1) else none))) := by
  unfold find_compound_filter_boundaries
  have hok : ∀ pr ∈ (ps.map probeFace).enum,
      ∃ b, is_face_in_face pr.2 (containerFace pts) default_tol = .ok b := by
    intro pr hpr
    rw [List.enum_map] at hpr
    obtain ⟨q, _, rfl⟩ := List.mem_map.mp hpr
    exact ⟨_, is_face_in_face_probe_container q.2 pts⟩
  rw [fcfbs_loop_none_mode (containerFace pts) _ [] [] hok]
  rw [List.enum_map, List.filterMap_map]
  have hfun : ((fun pr : Nat × Face =>
      if containsOkTrue (is_face_in_face pr.2 (containerFace pts) default_tol) then
        some (faceIdxName pr.1) else none) ∘ Prod.map id probeFace) =
      (fun pr : Nat × Vec => if pr.2 ∈ pts then some (faceIdxName pr.1) else none) := by
    funext pr
    simp only [Function.comp_apply, Prod.map_snd, Prod.map_fst, id_eq,
      is_face_in_face_probe_container]
    by_cases hmem : pr.2 ∈ pts
    · simp [hmem, containsOkTrue]
    · simp [hmem, containsOkTrue]
  rw [hfun]
  simp only [List.nil_append]

/-- Indices accepted while scanning the first `n` compound faces are below
`n`. -/
theorem acceptedUpTo_lt (cf : CompoundFilter) (face : Face) (excl : List String) :
    ∀ n, ∀ j ∈ acceptedUpTo cf face excl n, j < n := by
  intro n
  induction n with
  | zero => intro j hj; cases hj
  | succ n ih =>
    intro j hj
    rw [acceptedUpTo] at hj
    by_cases hc : (containsOkTrue (is_face_in_face (cf.Faces.getD n face) face default_tol) &&
        (!decide (faceIdxName n ∈ excl)) &&
        (acceptedUpTo cf face excl n).all (fun j =>
          !containsOkTrue (is_face_in_face (cf.Faces.getD n face) (cf.Faces.getD j face)
            default_tol))) = true
    · rw [if_pos hc] at hj
      rcases List.mem_append.mp hj with hj | hj
      · exact Nat.lt_succ_of_lt (ih j hj)
      · rw [List.mem_singleton] at hj
        omega
    · rw [if_neg hc] at hj
      exact Nat.lt_succ_of_lt (ih j hj)

/-- Evaluation of the nested duplicate check `face_in_any` over the accepted
faces, when none of the containment tests raises. -/
theorem face_in_any_accepted (c : Face) (getFace : Nat → Face) :
    ∀ prev : List Nat,
      (∀ j ∈ prev, ∃ b, is_face_in_face c (getFace j) default_tol = .ok b) →
      face_in_any c (prev.map getFace) =
        .ok (!(prev.all (fun j => !containsOkTrue (is_face_in_face c (getFace j) default_tol)))) := by
  intro prev
  induction prev with
  | nil => intro _; rfl
  | cons j rest ih =>
    intro h
    obtain ⟨b, hb⟩ := h j (List.mem_cons_self _ _)
    rw [List.map_cons, face_in_any, hb]
    cases b
    · rw [ih (fun q hq => h q (List.mem_cons_of_mem _ hq))]
      simp [hb, containsOkTrue]
    · simp [hb, containsOkTrue]

/-- `containsOkTrue` on a successful false result. -/
theorem containsOkTrue_ok_false : containsOkTrue (.ok false) = false := rfl

/-- `containsOkTrue` on a successful true result. -/
theorem containsOkTrue_ok_true : containsOkTrue (.ok true) = true := rfl

/-- Main loop correspondence for `find_compound_filter_boundaries` in
used-names mode: starting from the state reached after scanning `k` faces,
the loop ends with exactly the accepted names, provided no containment test
raises. -/
theorem fcfbs_loop_used (cf : CompoundFilter) (face : Face) (excl : List String)
    (hA : ∀ i (hi : i < cf.Faces.length),
      ∃ b, is_face_in_face cf.Faces[i] face default_tol = .ok b)
    (hB : ∀ i j (hi : i < cf.Faces.length) (hj : j < cf.Faces.length),
      ∃ b, is_face_in_face cf.Faces[i] cf.Faces[j] default_tol = .ok b) :
    ∀ (m k : Nat), k + m = cf.Faces.length →
      fcfbs_loop face (some excl) (List.enumFrom k (cf.Faces.drop k))
        ((acceptedUpTo cf face excl k).map faceIdxName)
        ((acceptedUpTo cf face excl k).map (fun j => cf.Faces.getD j face)) =
      .ok ((acceptedUpTo cf face excl cf.Faces.length).map faceIdxName) := by
  intro m
  induction m with
  | zero =>
    intro k hk
    have hdrop : cf.Faces.drop k = [] := List.drop_eq_nil_of_le (by omega)
    have hkeq : k = cf.Faces.length := by omega
    rw [hdrop, hkeq]
    rfl
  | succ m ih =>
    intro k hk
    have hklt : k < cf.Faces.length := by omega
    obtain ⟨b, hb⟩ := hA k hklt
    have hgetD : cf.Faces.getD k face = cf.Faces[k] := List.getD_eq_getElem cf.Faces face hklt
    have hsucc : acceptedUpTo cf face excl (k + 1) =
        (if containsOkTrue (is_face_in_face (cf.Faces.getD k face) face default_tol) &&
            (!decide (faceIdxName k ∈ excl)) &&
            (acceptedUpTo cf face excl k).all (fun j =>
              !containsOkTrue (is_face_in_face (cf.Faces.getD k face) (cf.Faces.getD j face)
                default_tol))
         then acceptedUpTo cf face excl k ++ [k] else acceptedUpTo cf face excl k) := rfl
    rw [List.drop_eq_getElem_cons hklt, List.enumFrom, fcfbs_loop, hb]
    cases b with
    | false =>
      have hstep : acceptedUpTo cf face excl (k + 1) = acceptedUpTo cf face excl k := by
        rw [hsucc, hgetD, hb, containsOkTrue_ok_false]
        simp
      have := ih (k + 1) (by omega)
      rw [hstep] at this
      exact this
    | true =>
      by_cases hexcl : faceIdxName k ∈ excl
      · rw [if_pos hexcl]
        have hstep : acceptedUpTo cf face excl (k + 1) = acceptedUpTo cf face excl k := by
          rw [hsucc, hgetD, hb, containsOkTrue_ok_true]
          simp [hexcl]
        have := ih (k + 1) (by omega)
        rw [hstep] at this
        exact this
      · rw [if_neg hexcl]
        have hmemok : ∀ j ∈ acceptedUpTo cf face excl k,
            ∃ b, is_face_in_face cf.Faces[k] (cf.Faces.getD j face) default_tol = .ok b := by
          intro j hj
          have hjlt : j < cf.Faces.length :=
            lt_of_lt_of_le (acceptedUpTo_lt cf face excl k j hj) (by omega)
          rw [List.getD_eq_getElem cf.Faces face hjlt]
          exact hB k j hklt hjlt
        rw [face_in_any_accepted cf.Faces[k] (fun j => cf.Faces.getD j face)
          (acceptedUpTo cf face excl k) hmemok]
        by_cases hall : (acceptedUpTo cf face excl k).all (fun j =>
            !containsOkTrue (is_face_in_face cf.Faces[k] (cf.Faces.getD j face)
              default_tol)) = true
        · -- no previously accepted face contains this one: accept it
          have hcond : (containsOkTrue (is_face_in_face (cf.Faces.getD k face) face
                default_tol) &&
              (!decide (faceIdxName k ∈ excl)) &&
              (acceptedUpTo cf face excl k).all (fun j =>
                !containsOkTrue (is_face_in_face (cf.Faces.getD k face) (cf.Faces.getD j face)
                  default_tol))) = true := by
            rw [hgetD, hb, containsOkTrue_ok_true]
            simp only [Bool.true_and, Bool.and_eq_true]
            exact ⟨by simp [hexcl], hall⟩
          have hstep : acceptedUpTo cf face excl (k + 1) =
              acceptedUpTo cf face excl k ++ [k] := by
            rw [hsucc, if_pos hcond]
          rw [hall]
          have := ih (k + 1) (by omega)
          rw [hstep, List.map_append, List.map_append] at this
          simp only [List.map_cons, List.map_nil] at this
          simp only [Bool.not_true]
          rw [← hgetD]
          exact this
        · -- some previously accepted face contains it: skip
          simp only [Bool.not_eq_true] at hall
          have hcond : (containsOkTrue (is_face_in_face (cf.Faces.getD k face) face
                default_tol) &&
              (!decide (faceIdxName k ∈ excl)) &&
              (acceptedUpTo cf face excl k).all (fun j =>
                !containsOkTrue (is_face_in_face (cf.Faces.getD k face) (cf.Faces.getD j face)
                  default_tol))) = false := by
            rw [hgetD, hb, containsOkTrue_ok_true, hall]
            simp
          have hncond : ¬ ((containsOkTrue (is_face_in_face (cf.Faces.getD k face) face
                default_tol) &&
              (!decide (faceIdxName k ∈ excl)) &&
              (acceptedUpTo cf face excl k).all (fun j =>
                !containsOkTrue (is_face_in_face (cf.Faces.getD k face) (cf.Faces.getD j face)
                  default_tol))) = true) := by
            rw [hcond]
            exact Bool.false_ne_true
          have hstep : acceptedUpTo cf face excl (k + 1) = acceptedUpTo cf face excl k := by
            rw [hsucc, if_neg hncond]
          rw [hall]
          have := ih (k + 1) (by omega)
          rw [hstep] at this
          simp only [Bool.not_false]
          exact this

/-- C4.  In used-names mode (exclude list given), `find_compound_filter_boundaries`
returns exactly the compound-filter face names accepted by the per-index
rule of `acceptedUpTo` — contained in the query face, name not in the
exclude list, and not contained in any previously accepted candidate of the
same call — and it fails with the `Faces not found` error (the spec's
`EntitiesNotFound`) if and only if that set is empty.  The hypotheses state
that no containment test raises `Face point not found`. -/
theorem claim_C4 (cf : CompoundFilter) (face : Face) (excl : List String)
    (hA : ∀ i (hi : i < cf.Faces.length),
      ∃ b, is_face_in_face cf.Faces[i] face default_tol = .ok b)
    (hB : ∀ i j (hi : i < cf.Faces.length) (hj : j < cf.Faces.length),
      ∃ b, is_face_in_face cf.Faces[i] cf.Faces[j] default_tol = .ok b) :
    find_compound_filter_boundaries cf face (some excl) =
      (if acceptedUpTo cf face excl cf.Faces.length = [] then .error "Faces not found"
       else .ok ((acceptedUpTo cf face excl cf.Faces.length).map faceIdxName)) := by
  unfold find_compound_filter_boundaries
  have h0 := fcfbs_loop_used cf face excl hA hB cf.Faces.length 0 (by omega)
  have hzero : acceptedUpTo cf face excl 0 = [] := rfl
  rw [hzero, List.map_nil, List.map_nil, List.drop_zero, ← List.enum_eq_enumFrom] at h0
  rw [h0]
  by_cases h : acceptedUpTo cf face excl cf.Faces.length = []
  · rw [if_pos h, h, List.map_nil]
    rfl
  · have hmapne : ¬ (List.map faceIdxName (acceptedUpTo cf face excl cf.Faces.length) = []) :=
      fun hc => h (List.map_eq_nil.mp hc)
    rw [if_neg h]
    dsimp only
    rw [if_neg hmapne]

/-- Lookup in the empty name table. -/
theorem alookup_nil {β : Type} (c : String) : alookup ([] : List (String × β)) c = none := rfl

/-- Lookup of the most recent binding. -/
theorem alookup_cons_self {β : Type} (k : String) (v : β) (m : List (String × β)) :
    alookup ((k, v) :: m) k = some v := by
  simp [alookup]

/-- Lookup skips bindings with other keys. -/
theorem alookup_cons_ne {β : Type} (k c : String) (v : β) (m : List (String × β))
    (hne : k ≠ c) : alookup ((k, v) :: m) c = alookup m c := by
  simp [alookup, hne]

/-- A `merge_boundaries` run over fresh compound face names with an already
existing surface object: the only effect is to bind every name to that
object; all names come back in `filtered_compound_faces`. -/
theorem merge_loop_fresh (fe : FaceEntity) (g : Nat) :
    ∀ (cfaces : List String) (st : BState) (fil : List String),
      (∀ c ∈ cfaces, alookup st.byCface c = none) → cfaces.Nodup →
      List.foldl (fun acc cface => merge_boundaries_step fe acc.1 acc.2.1 acc.2.2 cface)
        (st, some g, fil) cfaces =
      ({ st with byCface := pushAll cfaces g st.byCface }, some g, fil ++ cfaces) := by
  intro cfaces
  induction cfaces with
  | nil =>
    intro st fil _ _
    simp [pushAll]
  | cons c rest ih =>
    intro st fil hfresh hnd
    rw [List.foldl_cons]
    have hc : alookup st.byCface c = none := hfresh c (List.mem_cons_self _ _)
    have hstep : merge_boundaries_step fe st (some g) fil c =
        ({ st with byCface := (c, g) :: st.byCface }, some g, fil ++ [c]) := by
      unfold merge_boundaries_step
      rw [hc]
    rw [hstep]
    rw [List.nodup_cons] at hnd
    have hfresh' : ∀ c' ∈ rest, alookup ((c, g) :: st.byCface) c' = none := by
      intro c' hc'
      rw [alookup_cons_ne c c' g st.byCface (fun heq => hnd.1 (heq ▸ hc'))]
      exact hfresh c' (List.mem_cons_of_mem _ hc')
    have := ih { st with byCface := (c, g) :: st.byCface } (fil ++ [c]) hfresh' hnd.2
    rw [this]
    simp [pushAll]

/-- A `merge_boundaries` run over fresh (nonempty, duplicate-free) compound
face names with no surface object yet: exactly one mesh group is allocated,
labelled with the entity's name, and every compound face name is bound to it
and returned in `filtered_compound_faces`. -/
theorem merge_boundaries_fresh_none (fe : FaceEntity) (c : String) (rest : List String)
    (st : BState) (hfresh : ∀ y ∈ c :: rest, alookup st.byCface y = none)
    (hnd : (c :: rest).Nodup) :
    merge_boundaries fe (c :: rest) none st =
      ({ st with doc := ⟨st.doc.objs ++ [⟨fe.name, fe.mesh_size, []⟩]⟩,
                 byCface := pushAll (c :: rest) st.doc.objs.length st.byCface },
       some st.doc.objs.length, c :: rest) := by
  unfold merge_boundaries
  rw [List.foldl_cons]
  have hc : alookup st.byCface c = none := hfresh c (List.mem_cons_self _ _)
  have hstep : merge_boundaries_step fe st none [] c =
      ({ st with doc := ⟨st.doc.objs ++ [⟨fe.name, fe.mesh_size, []⟩]⟩,
                 byCface := (c, st.doc.objs.length) :: st.byCface },
       some st.doc.objs.length, [c]) := by
    unfold merge_boundaries_step
    rw [hc]
    rfl
  rw [hstep]
  rw [List.nodup_cons] at hnd
  have hfresh' : ∀ c' ∈ rest,
      alookup ((c, st.doc.objs.length) :: st.byCface) c' = none := by
    intro c' hc'
    rw [alookup_cons_ne c c' _ st.byCface (fun heq => hnd.1 (heq ▸ hc'))]
    exact hfresh c' (List.mem_cons_of_mem _ hc')
  rw [merge_loop_fresh fe st.doc.objs.length rest _ [c] hfresh' hnd.2]
  simp [pushAll]

/-- A compound name followed by an underscore and another name differs from
the original name. -/
theorem append_underscore_ne (a b : String) : a ++ "_" ++ b ≠ a := by
  intro h
  have := congrArg String.length h
  rw [String.length_append, String.length_append] at this
  have h1 : ("_" : String).length = 1 := rfl
  omega

/-- C1.  Two entities processed in order, the first named `a` resolving to
exactly one compound-filter face `x`, the second named `b` (distinct name)
resolving to exactly that same face: the final state has a single mesh
group, relabelled `a_b`, still owning exactly `x`, and the name-tracking
list contains `a_b` in place of the bare `a` (no group is ever created for
`b`). -/
theorem claim_C1 (cf : CompoundFilter) (a b x : String) (ga gb : Face) (msA msB : Option ℚ)
    (hab : a ≠ b)
    (hA : find_compound_filter_boundaries cf ga none = .ok [x])
    (hB : find_compound_filter_boundaries cf gb none = .ok [x]) :
    find_boundaries_with_entities_dict cf
        [⟨a, ga, msA⟩, ⟨b, gb, msB⟩] false =
      .ok ⟨⟨⟨[⟨a ++ "_" ++ b, msA, [x]⟩]⟩, [a ++ "_" ++ b], [0], [(x, 0)]⟩, [x, x]⟩ := by
  have hmerge1 := merge_boundaries_fresh_none ⟨a, ga, msA⟩ x []
    ⟨⟨[]⟩, [], [], []⟩ (by intro y _; rfl) (by simp)
  have hstep1 : fbwed_step cf false ⟨⟨⟨[]⟩, [], [], []⟩, []⟩ ⟨a, ga, msA⟩ =
      .ok ⟨⟨⟨[⟨a, msA, [x]⟩]⟩, [a], [0], [(x, 0)]⟩, [x]⟩ := by
    unfold fbwed_step
    simp [hA, hmerge1, pushAll, modifyObj, listModify]
  have hmerge2 : merge_boundaries ⟨b, gb, msB⟩ [x] none
      ⟨⟨[⟨a, msA, [x]⟩]⟩, [a], [0], [(x, 0)]⟩ =
      (⟨⟨[⟨a ++ "_" ++ b, msA, [x]⟩]⟩, [a ++ "_" ++ b], [0], [(x, 0)]⟩, none, []) := by
    unfold merge_boundaries
    rw [List.foldl_cons, List.foldl_nil]
    unfold merge_boundaries_step
    rw [alookup_cons_self]
    simp [getObj, modifyObj, listModify, listSet, List.indexOf_cons_self]
  have hstep2 : fbwed_step cf false ⟨⟨⟨[⟨a, msA, [x]⟩]⟩, [a], [0], [(x, 0)]⟩, [x]⟩
      ⟨b, gb, msB⟩ =
      .ok ⟨⟨⟨[⟨a ++ "_" ++ b, msA, [x]⟩]⟩, [a ++ "_" ++ b], [0], [(x, 0)]⟩, [x, x]⟩ := by
    unfold fbwed_step
    simp [hB, hmerge2, hab.symm]
  unfold find_boundaries_with_entities_dict
  rw [List.foldlM_cons, hstep1]
  show List.foldlM (fun st face => fbwed_step cf false st face) _ [⟨b, gb, msB⟩] = _
  rw [List.foldlM_cons, hstep2]
  rfl

/-- C2.  A first entity named `a` owning compound faces `{x, y}`, then an
entity named `b` resolving to `y` alone: `y` is detached from `a`'s group
(which keeps `{x}` and its label `a`) and attached to a newly created group
labelled `a_b`; the final groups are `a -> {x}` and `a_b -> {y}`. -/
theorem claim_C2 (cf : CompoundFilter) (a b x y : String) (ga gb : Face) (msA msB : Option ℚ)
    (hab : a ≠ b) (hxy : x ≠ y)
    (hA : find_compound_filter_boundaries cf ga none = .ok [x, y])
    (hB : find_compound_filter_boundaries cf gb none = .ok [y]) :
    find_boundaries_with_entities_dict cf
        [⟨a, ga, msA⟩, ⟨b, gb, msB⟩] false =
      .ok ⟨⟨⟨[⟨a, msA, [x]⟩, ⟨a ++ "_" ++ b, msB, [y]⟩]⟩, [a, a ++ "_" ++ b], [0, 1],
        [(y, 1), (y, 0), (x, 0)]⟩, [x, y, y]⟩ := by
  have hmerge1 := merge_boundaries_fresh_none ⟨a, ga, msA⟩ x [y]
    ⟨⟨[]⟩, [], [], []⟩ (by intro z _; rfl) (by simp [hxy])
  have hstep1 : fbwed_step cf false ⟨⟨⟨[]⟩, [], [], []⟩, []⟩ ⟨a, ga, msA⟩ =
      .ok ⟨⟨⟨[⟨a, msA, [x, y]⟩]⟩, [a], [0], [(y, 0), (x, 0)]⟩, [x, y]⟩ := by
    unfold fbwed_step
    simp [hA, hmerge1, pushAll, modifyObj, listModify]
  have hmerge2 : merge_boundaries ⟨b, gb, msB⟩ [y] none
      ⟨⟨[⟨a, msA, [x, y]⟩]⟩, [a], [0], [(y, 0), (x, 0)]⟩ =
      (⟨⟨[⟨a, msA, [x]⟩, ⟨a ++ "_" ++ b, msB, [y]⟩]⟩, [a, a ++ "_" ++ b], [0, 1],
        [(y, 1), (y, 0), (x, 0)]⟩, none, []) := by
    unfold merge_boundaries
    rw [List.foldl_cons, List.foldl_nil]
    unfold merge_boundaries_step
    rw [alookup_cons_self]
    simp [getObj, modifyObj, listModify, listSet, hxy, append_underscore_ne a b,
      create_mesh_group_and_set_mesh_size]
  have hstep2 : fbwed_step cf false
      ⟨⟨⟨[⟨a, msA, [x, y]⟩]⟩, [a], [0], [(y, 0), (x, 0)]⟩, [x, y]⟩ ⟨b, gb, msB⟩ =
      .ok ⟨⟨⟨[⟨a, msA, [x]⟩, ⟨a ++ "_" ++ b, msB, [y]⟩]⟩, [a, a ++ "_" ++ b], [0, 1],
        [(y, 1), (y, 0), (x, 0)]⟩, [x, y, y]⟩ := by
    unfold fbwed_step
    simp [hB, hmerge2, hab.symm]
  unfold find_boundaries_with_entities_dict
  rw [List.foldlM_cons, hstep1]
  show List.foldlM (fun st face => fbwed_step cf false st face) _ [⟨b, gb, msB⟩] = _
  rw [List.foldlM_cons, hstep2]
  rfl

/-- Membership in the first-occurrence deduplication (generalised over the
accumulator). -/
theorem dedupFirst_fold_mem (x : String) :
    ∀ (l : List String) (acc : List String),
      (x ∈ l.foldl (fun acc n => if n ∈ acc then acc else acc ++ [n]) acc ↔
        x ∈ acc ∨ x ∈ l) := by
  intro l
  induction l with
  | nil => intro acc; simp
  | cons n rest ih =>
    intro acc
    rw [List.foldl_cons]
    by_cases hn : n ∈ acc
    · rw [if_pos hn, ih acc]
      constructor
      · rintro (h | h)
        · exact Or.inl h
        · exact Or.inr (List.mem_cons_of_mem _ h)
      · rintro (h | h)
        · exact Or.inl h
        · rcases List.mem_cons.mp h with rfl | h
          · exact Or.inl hn
          · exact Or.inr h
    · rw [if_neg hn, ih (acc ++ [n])]
      simp only [List.mem_append, List.mem_singleton, List.mem_cons]
      tauto

/-- Membership in `dedupFirst`. -/
theorem dedupFirst_mem (x : String) (l : List String) : x ∈ dedupFirst l ↔ x ∈ l := by
  unfold dedupFirst
  rw [dedupFirst_fold_mem]
  simp

/-- `dedupFirst` has no duplicates (generalised over the accumulator). -/
theorem dedupFirst_fold_nodup :
    ∀ (l : List String) (acc : List String), acc.Nodup →
      (l.foldl (fun acc n => if n ∈ acc then acc else acc ++ [n]) acc).Nodup := by
  intro l
  induction l with
  | nil => intro acc h; exact h
  | cons n rest ih =>
    intro acc h
    rw [List.foldl_cons]
    by_cases hn : n ∈ acc
    · rw [if_pos hn]; exact ih acc h
    · rw [if_neg hn]
      refine ih (acc ++ [n]) ?_
      simp [List.nodup_append, h, hn]

/-- `dedupFirst` has no duplicates. -/
theorem dedupFirst_nodup (l : List String) : (dedupFirst l).Nodup :=
  dedupFirst_fold_nodup l [] List.nodup_nil

/-- Appending an already-seen name leaves `dedupFirst` unchanged. -/
theorem dedupFirst_append_mem (l : List String) (n : String) (h : n ∈ l) :
    dedupFirst (l ++ [n]) = dedupFirst l := by
  unfold dedupFirst
  rw [List.foldl_append, List.foldl_cons, List.foldl_nil,
    if_pos ((dedupFirst_fold_mem n l []).mpr (Or.inr h))]

/-- Appending a fresh name appends it to `dedupFirst`. -/
theorem dedupFirst_append_not_mem (l : List String) (n : String) (h : n ∉ l) :
    dedupFirst (l ++ [n]) = dedupFirst l ++ [n] := by
  unfold dedupFirst
  rw [List.foldl_append, List.foldl_cons, List.foldl_nil, if_neg]
  intro hc
  rcases (dedupFirst_fold_mem n l []).mp hc with hc | hc
  · cases hc
  · exact h hc

/-- `refsOf` after appending one resolved entity. -/
theorem refsOf_append (done : List (FaceEntity × List String)) (p : FaceEntity × List String)
    (nm : String) :
    refsOf (done ++ [p]) nm = refsOf done nm ++ (if p.1.name = nm then p.2 else []) := by
  unfold refsOf
  rw [List.filter_append, List.map_append, List.flatten_append]
  by_cases h : p.1.name = nm
  · simp [h]
  · simp [h]

/-- `refsOf` of an unseen name is empty. -/
theorem refsOf_empty_of_not_mem (done : List (FaceEntity × List String)) (nm : String)
    (h : nm ∉ entityNames done) : refsOf done nm = [] := by
  unfold refsOf
  have : done.filter (fun p => decide (p.1.name = nm)) = [] := by
    rw [List.filter_eq_nil]
    intro p hp hc
    exact h (List.mem_map.mpr ⟨p, hp, by simpa using hc⟩)
  rw [this]
  rfl

/-- Members of `refsOf` come from a contributing entity with that name, and
conversely. -/
theorem mem_refsOf (done : List (FaceEntity × List String)) (nm : String) (s : String) :
    s ∈ refsOf done nm ↔ ∃ p ∈ done, p.1.name = nm ∧ s ∈ p.2 := by
  unfold refsOf
  rw [List.mem_flatten]
  constructor
  · rintro ⟨l, hl, hs⟩
    obtain ⟨p, hp, rfl⟩ := List.mem_map.mp hl
    obtain ⟨hpd, hpn⟩ := List.mem_filter.mp hp
    exact ⟨p, hpd, by simpa using hpn, hs⟩
  · rintro ⟨p, hp, hnm, hs⟩
    exact ⟨p.2, List.mem_map.mpr ⟨p, List.mem_filter.mpr ⟨hp, by simpa using hnm⟩, rfl⟩, hs⟩

/-- `firstMesh` after appending, when the name was already seen. -/
theorem firstMesh_append_of_mem (done : List (FaceEntity × List String))
    (p : FaceEntity × List String) (nm : String) (h : nm ∈ entityNames done) :
    firstMesh (done ++ [p]) nm = firstMesh done nm := by
  unfold firstMesh
  obtain ⟨q, hq, hqn⟩ := List.mem_map.mp h
  have hsome : (done.find? (fun r => decide (r.1.name = nm))).isSome := by
    rw [List.find?_isSome]
    exact ⟨q, hq, by simpa using hqn⟩
  obtain ⟨r, hr⟩ := Option.isSome_iff_exists.mp hsome
  rw [List.find?_append, hr]
  rfl

/-- `firstMesh` after appending, when the name is fresh. -/
theorem firstMesh_append_of_not_mem (done : List (FaceEntity × List String))
    (p : FaceEntity × List String) (nm : String) (h : nm ∉ entityNames done) :
    firstMesh (done ++ [p]) nm =
      (if p.1.name = nm then p.1.mesh_size else none) := by
  unfold firstMesh
  have hnone : done.find? (fun r => decide (r.1.name = nm)) = none := by
    rw [List.find?_eq_none]
    intro q hq hc
    exact h (List.mem_map.mpr ⟨q, hq, by simpa using hc⟩)
  rw [List.find?_append, hnone]
  by_cases hp : p.1.name = nm
  · simp [List.find?, hp]
  · simp [List.find?, hp]

/-- `listModify` preserves length. -/
theorem listModify_length {α : Type} (f : α → α) :
    ∀ (n : Nat) (l : List α), (listModify f n l).length = l.length := by
  intro n
  induction n with
  | zero => intro l; cases l <;> rfl
  | succ n ih =>
    intro l
    cases l with
    | nil => rfl
    | cons a rest => simp [listModify, ih]

/-- Reading the modified position. -/
theorem getD_listModify_self {α : Type} (f : α → α) (d : α) :
    ∀ (n : Nat) (l : List α), n < l.length →
      (listModify f n l).getD n d = f (l.getD n d) := by
  intro n
  induction n with
  | zero =>
    intro l hl
    cases l with
    | nil => cases hl
    | cons a rest => rfl
  | succ n ih =>
    intro l hl
    cases l with
    | nil => cases hl
    | cons a rest =>
      simp only [listModify, List.getD_cons_succ]
      exact ih rest (by simpa using hl)

/-- Reading any other position. -/
theorem getD_listModify_ne {α : Type} (f : α → α) (d : α) :
    ∀ (n m : Nat) (l : List α), m ≠ n →
      (listModify f n l).getD m d = l.getD m d := by
  intro n
  induction n with
  | zero =>
    intro m l hm
    cases l with
    | nil => rfl
    | cons a rest =>
      cases m with
      | zero => exact absurd rfl hm
      | succ m => rfl
  | succ n ih =>
    intro m l hm
    cases l with
    | nil => rfl
    | cons a rest =>
      cases m with
      | zero => rfl
      | succ m =>
        simp only [listModify, List.getD_cons_succ]
        exact ih m rest (fun h => hm (by omega))

/-- Reading inside `List.range`. -/
theorem getD_range (n k : Nat) (h : k < n) : (List.range n).getD k 0 = k := by
  rw [List.getD_eq_getElem (List.range n) 0 (by simpa using h)]
  simp

/-- A successful `find_compound_filter_boundaries` result is nonempty (the
empty case raises `Faces not found`). -/
theorem fcfb_ok_ne_nil (cf : CompoundFilter) (f : Face) (u : Option (List String))
    (l : List String) (hok : find_compound_filter_boundaries cf f u = .ok l) :
    l ≠ [] := by
  unfold find_compound_filter_boundaries at hok
  split at hok
  · cases hok
  · split at hok
    · cases hok
    · cases hok
      assumption

/-- Every name collected by the `find_compound_filter_boundaries` loop is
either inherited from the accumulator or names one of the scanned faces. -/
theorem fcfbs_loop_mem (face : Face) (u : Option (List String)) :
    ∀ (pairs : List (Nat × Face)) (acc : List String) (found : List Face)
      (out : List String),
      fcfbs_loop face u pairs acc found = .ok out →
      ∀ s ∈ out, s ∈ acc ∨ ∃ pr ∈ pairs, s = faceIdxName pr.1 := by
  cases u with
  | none =>
    intro pairs
    induction pairs with
    | nil =>
      intro acc found out h s hs
      cases h
      exact Or.inl hs
    | cons pr rest ih =>
      intro acc found out h s hs
      obtain ⟨num, cface⟩ := pr
      have hcons : fcfbs_loop face none ((num, cface) :: rest) acc found =
          (match is_face_in_face cface face default_tol with
           | .error e => .error e
           | .ok false => fcfbs_loop face none rest acc found
           | .ok true => fcfbs_loop face none rest (acc ++ [faceIdxName num]) found) := rfl
      rw [hcons] at h
      cases hiff : is_face_in_face cface face default_tol with
      | error e => rw [hiff] at h; cases h
      | ok b =>
        rw [hiff] at h
        cases b with
        | false =>
          rcases ih acc found out h s hs with h' | ⟨q, hq, rfl⟩
          · exact Or.inl h'
          · exact Or.inr ⟨q, List.mem_cons_of_mem _ hq, rfl⟩
        | true =>
          rcases ih (acc ++ [faceIdxName num]) found out h s hs with h' | ⟨q, hq, rfl⟩
          · rcases List.mem_append.mp h' with h' | h'
            · exact Or.inl h'
            · exact Or.inr ⟨(num, cface), List.mem_cons_self _ _,
                by rw [List.mem_singleton] at h'; rw [h']⟩
          · exact Or.inr ⟨q, List.mem_cons_of_mem _ hq, rfl⟩
  | some used =>
    intro pairs
    induction pairs with
    | nil =>
      intro acc found out h s hs
      cases h
      exact Or.inl hs
    | cons pr rest ih =>
      intro acc found out h s hs
      obtain ⟨num, cface⟩ := pr
      have hcons : fcfbs_loop face (some used) ((num, cface) :: rest) acc found =
          (match is_face_in_face cface face default_tol with
           | .error e => .error e
           | .ok false => fcfbs_loop face (some used) rest acc found
           | .ok true =>
             if faceIdxName num ∈ used then fcfbs_loop face (some used) rest acc found
             else
               match face_in_any cface found with
               | .error e => .error e
               | .ok true => fcfbs_loop face (some used) rest acc found
               | .ok false => fcfbs_loop face (some used) rest (acc ++ [faceIdxName num])
                   (found ++ [cface])) := rfl
      rw [hcons] at h
      cases hiff : is_face_in_face cface face default_tol with
      | error e => rw [hiff] at h; cases h
      | ok b =>
        rw [hiff] at h
        cases b with
        | false =>
          rcases ih acc found out h s hs with h' | ⟨q, hq, rfl⟩
          · exact Or.inl h'
          · exact Or.inr ⟨q, List.mem_cons_of_mem _ hq, rfl⟩
        | true =>
          by_cases hmem : faceIdxName num ∈ used
          · rw [if_pos hmem] at h
            rcases ih acc found out h s hs with h' | ⟨q, hq, rfl⟩
            · exact Or.inl h'
            · exact Or.inr ⟨q, List.mem_cons_of_mem _ hq, rfl⟩
          · rw [if_neg hmem] at h
            cases hany : face_in_any cface found with
            | error e => rw [hany] at h; cases h
            | ok c =>
              rw [hany] at h
              cases c with
              | true =>
                rcases ih acc found out h s hs with h' | ⟨q, hq, rfl⟩
                · exact Or.inl h'
                · exact Or.inr ⟨q, List.mem_cons_of_mem _ hq, rfl⟩
              | false =>
                rcases ih (acc ++ [faceIdxName num]) (found ++ [cface]) out h s hs with
                  h' | ⟨q, hq, rfl⟩
                · rcases List.mem_append.mp h' with h' | h'
                  · exact Or.inl h'
                  · exact Or.inr ⟨(num, cface), List.mem_cons_self _ _,
                      by rw [List.mem_singleton] at h'; rw [h']⟩
                · exact Or.inr ⟨q, List.mem_cons_of_mem _ hq, rfl⟩

/-- Every name returned by `find_compound_filter_boundaries` is a genuine
compound-filter face name. -/
theorem fcfb_ok_names (cf : CompoundFilter) (f : Face) (u : Option (List String))
    (l : List String) (hok : find_compound_filter_boundaries cf f u = .ok l) :
    ∀ s ∈ l, ∃ i, i < cf.Faces.length ∧ s = faceIdxName i := by
  have hloop : fcfbs_loop f u cf.Faces.enum [] [] = .ok l := by
    unfold find_compound_filter_boundaries at hok
    split at hok
    · cases hok
    · split at hok
      · cases hok
      · cases hok
        assumption
  intro s hs
  rcases fcfbs_loop_mem f u cf.Faces.enum [] [] l hloop s hs with h' | ⟨pr, hpr, rfl⟩
  · cases h'
  · rw [List.enum_eq_enumFrom] at hpr
    obtain ⟨pn, px⟩ := pr
    have := List.mem_enumFrom hpr
    exact ⟨pn, by omega, rfl⟩

/-- Lookup after `pushAll`, for a name not among the pushed ones. -/
theorem alookup_pushAll_not_mem (g : Nat) :
    ∀ (cfaces : List String) (m : List (String × Nat)) (c : String), c ∉ cfaces →
      alookup (pushAll cfaces g m) c = alookup m c := by
  intro cfaces
  induction cfaces with
  | nil => intro m c _; rfl
  | cons c0 rest ih =>
    intro m c hc
    rw [show pushAll (c0 :: rest) g m = pushAll rest g ((c0, g) :: m) from rfl]
    rw [ih ((c0, g) :: m) c (fun h => hc (List.mem_cons_of_mem _ h))]
    exact alookup_cons_ne c0 c g m (fun h => hc (h ▸ List.mem_cons_self _ _))

/-- Lookup after `pushAll`, for one of the pushed names. -/
theorem alookup_pushAll_mem (g : Nat) :
    ∀ (cfaces : List String) (m : List (String × Nat)) (c : String), c ∈ cfaces →
      alookup (pushAll cfaces g m) c = some g := by
  intro cfaces
  induction cfaces with
  | nil => intro m c hc; cases hc
  | cons c0 rest ih =>
    intro m c hc
    rw [show pushAll (c0 :: rest) g m = pushAll rest g ((c0, g) :: m) from rfl]
    by_cases hcr : c ∈ rest
    · exact ih _ c hcr
    · have hc0 : c = c0 := by
        rcases List.mem_cons.mp hc with h | h
        · exact h
        · exact absurd h hcr
      subst hc0
      rw [alookup_pushAll_not_mem g rest _ c hcr]
      exact alookup_cons_self c g m

/-- One step of the boundary reconciler in the disjoint regime (the next
entity's resolved faces are fresh): the step succeeds and preserves the
reconciler invariant `C3Inv`. -/
theorem C3_step (cf : CompoundFilter) (done : List (FaceEntity × List String))
    (fe : FaceEntity) (R : List String)
    (objs : List MeshGroup) (byC : List (String × Nat)) (af : List String)
    (hinv : C3Inv done ⟨⟨⟨objs⟩, dedupFirst (entityNames done),
      List.range (dedupFirst (entityNames done)).length, byC⟩, af⟩)
    (hres : find_compound_filter_boundaries cf fe.geom none = .ok R)
    (hnd : R.Nodup)
    (hfresh : ∀ s ∈ R, ∀ p ∈ done, s ∉ p.2) :
    ∃ objs' byC' af',
      fbwed_step cf false ⟨⟨⟨objs⟩, dedupFirst (entityNames done),
        List.range (dedupFirst (entityNames done)).length, byC⟩, af⟩ fe =
        .ok ⟨⟨⟨objs'⟩, dedupFirst (entityNames (done ++ [(fe, R)])),
          List.range (dedupFirst (entityNames (done ++ [(fe, R)]))).length, byC'⟩, af'⟩ ∧
      C3Inv (done ++ [(fe, R)]) ⟨⟨⟨objs'⟩, dedupFirst (entityNames (done ++ [(fe, R)])),
        List.range (dedupFirst (entityNames (done ++ [(fe, R)]))).length, byC'⟩, af'⟩ := by
  have hlen : objs.length = (dedupFirst (entityNames done)).length := hinv.2.2.1
  have hobjs : ∀ k, k < (dedupFirst (entityNames done)).length →
      getObj ⟨objs⟩ k = ⟨(dedupFirst (entityNames done)).getD k "",
        firstMesh done ((dedupFirst (entityNames done)).getD k ""),
        refsOf done ((dedupFirst (entityNames done)).getD k "")⟩ := hinv.2.2.2.1
  have hbyc : ∀ c k, alookup byC c = some k → ∃ p ∈ done, c ∈ p.2 := hinv.2.2.2.2
  have hRne : R ≠ [] := fcfb_ok_ne_nil cf fe.geom none R hres
  have hfr : ∀ c ∈ R, alookup byC c = none := by
    intro c hc
    cases halk : alookup byC c with
    | none => rfl
    | some k =>
      obtain ⟨p, hp, hcp⟩ := hbyc c k halk
      exact absurd hcp (hfresh c hc p hp)
  have hnames : entityNames (done ++ [(fe, R)]) = entityNames done ++ [fe.name] := by
    unfold entityNames
    rw [List.map_append]
    rfl
  by_cases hcase : fe.name ∈ entityNames done
  · -- old name: the existing group absorbs the fresh faces
    have hfnl' : dedupFirst (entityNames (done ++ [(fe, R)])) =
        dedupFirst (entityNames done) := by
      rw [hnames, dedupFirst_append_mem _ _ hcase]
    have hmemfnl : fe.name ∈ dedupFirst (entityNames done) := (dedupFirst_mem _ _).mpr hcase
    have hidxlt : (dedupFirst (entityNames done)).indexOf fe.name <
        (dedupFirst (entityNames done)).length := List.indexOf_lt_length.mpr hmemfnl
    have hfnlidx : (dedupFirst (entityNames done)).getD
        ((dedupFirst (entityNames done)).indexOf fe.name) "" = fe.name := by
      rw [List.getD_eq_getElem _ _ hidxlt]
      exact List.getElem_indexOf hidxlt
    have hobj_id : (List.range (dedupFirst (entityNames done)).length).getD
        ((dedupFirst (entityNames done)).indexOf fe.name) 0 =
        (dedupFirst (entityNames done)).indexOf fe.name := getD_range _ _ hidxlt
    have hfound : getObj ⟨objs⟩ ((dedupFirst (entityNames done)).indexOf fe.name) =
        ⟨fe.name, firstMesh done fe.name, refsOf done fe.name⟩ := by
      have h := hobjs _ hidxlt
      rw [hfnlidx] at h
      exact h
    have hmerge : merge_boundaries fe R
        (some ((dedupFirst (entityNames done)).indexOf fe.name))
        ⟨⟨objs⟩, dedupFirst (entityNames done),
          List.range (dedupFirst (entityNames done)).length, byC⟩ =
        (⟨⟨objs⟩, dedupFirst (entityNames done),
          List.range (dedupFirst (entityNames done)).length,
          pushAll R ((dedupFirst (entityNames done)).indexOf fe.name) byC⟩,
         some ((dedupFirst (entityNames done)).indexOf fe.name), R) := by
      unfold merge_boundaries
      rw [merge_loop_fresh fe _ R _ [] hfr hnd]
      rfl
    refine ⟨listModify (fun g => { g with References := refsOf done fe.name ++ R })
        ((dedupFirst (entityNames done)).indexOf fe.name) objs,
      pushAll R ((dedupFirst (entityNames done)).indexOf fe.name) byC, af, ?_, ?_⟩
    · rw [hfnl']
      unfold fbwed_step
      rw [if_pos hmemfnl]
      try dsimp only
      rw [hobj_id, hres]
      simp only [Bool.false_eq_true, if_false]
      try dsimp only
      rw [hmerge]
      try dsimp only
      rw [if_neg hRne, hfound]
      dsimp only [modifyObj]
    · unfold C3Inv
      refine ⟨rfl, rfl, ?_, ?_, ?_⟩
      · show (listModify _ _ objs).length = _
        rw [listModify_length, hlen, hfnl']
      · intro k hk
        rw [hfnl'] at hk
        rw [show (dedupFirst (entityNames (done ++ [(fe, R)]))).getD k "" =
            (dedupFirst (entityNames done)).getD k "" from by rw [hfnl']]
        by_cases hkidx : k = (dedupFirst (entityNames done)).indexOf fe.name
        · subst hkidx
          show (listModify _ _ objs).getD _ mgDflt = _
          rw [getD_listModify_self _ mgDflt _ objs (by rw [hlen]; exact hidxlt)]
          have h := hobjs _ hidxlt
          rw [hfnlidx] at h
          have hgetd : objs.getD ((dedupFirst (entityNames done)).indexOf fe.name) mgDflt =
              ⟨fe.name, firstMesh done fe.name, refsOf done fe.name⟩ := h
          rw [hgetd, hfnlidx]
          have h1 : firstMesh (done ++ [(fe, R)]) fe.name = firstMesh done fe.name :=
            firstMesh_append_of_mem done (fe, R) fe.name hcase
          have h2 : refsOf (done ++ [(fe, R)]) fe.name = refsOf done fe.name ++ R := by
            rw [refsOf_append]
            simp
          rw [h1, h2]
        · show (listModify _ _ objs).getD _ mgDflt = _
          rw [getD_listModify_ne _ mgDflt _ _ objs hkidx]
          have hgetd : objs.getD k mgDflt = ⟨(dedupFirst (entityNames done)).getD k "",
              firstMesh done ((dedupFirst (entityNames done)).getD k ""),
              refsOf done ((dedupFirst (entityNames done)).getD k "")⟩ := hobjs k hk
          rw [hgetd]
          have hnm_mem : (dedupFirst (entityNames done)).getD k "" ∈
              dedupFirst (entityNames done) := by
            rw [List.getD_eq_getElem _ _ hk]
            exact List.getElem_mem hk
          have hnm_names : (dedupFirst (entityNames done)).getD k "" ∈ entityNames done :=
            (dedupFirst_mem _ _).mp hnm_mem
          have hne : fe.name ≠ (dedupFirst (entityNames done)).getD k "" := by
            intro hcontra
            apply hkidx
            have hgk : (dedupFirst (entityNames done))[k] =
                (dedupFirst (entityNames done))[(dedupFirst (entityNames done)).indexOf
                  fe.name] := by
              rw [List.getElem_indexOf hidxlt]
              rw [← List.getD_eq_getElem (dedupFirst (entityNames done)) "" hk]
              exact hcontra.symm
            exact ((dedupFirst_nodup (entityNames done)).getElem_inj_iff).mp hgk
          have h1 : firstMesh (done ++ [(fe, R)]) ((dedupFirst (entityNames done)).getD k "")
              = firstMesh done ((dedupFirst (entityNames done)).getD k "") :=
            firstMesh_append_of_mem done (fe, R) _ hnm_names
          have h2 : refsOf (done ++ [(fe, R)]) ((dedupFirst (entityNames done)).getD k "")
              = refsOf done ((dedupFirst (entityNames done)).getD k "") := by
            rw [refsOf_append, if_neg hne, List.append_nil]
          rw [h1, h2]
      · intro c k halk
        by_cases hcR : c ∈ R
        · exact ⟨(fe, R), List.mem_append.mpr (Or.inr (List.mem_singleton.mpr rfl)), hcR⟩
        · rw [show alookup (pushAll R ((dedupFirst (entityNames done)).indexOf fe.name) byC)
              c = alookup byC c from alookup_pushAll_not_mem _ R byC c hcR] at halk
          obtain ⟨p, hp, hcp⟩ := hbyc c k halk
          exact ⟨p, List.mem_append.mpr (Or.inl hp), hcp⟩
  · -- new name: a fresh group is allocated for this entity
    have hfnl' : dedupFirst (entityNames (done ++ [(fe, R)])) =
        dedupFirst (entityNames done) ++ [fe.name] := by
      rw [hnames, dedupFirst_append_not_mem _ _ hcase]
    have hnotfnl : fe.name ∉ dedupFirst (entityNames done) :=
      fun h => hcase ((dedupFirst_mem _ _).mp h)
    obtain ⟨c0, rest, rfl⟩ : ∃ c0 rest, R = c0 :: rest := by
      cases R with
      | nil => exact absurd rfl hRne
      | cons c0 rest => exact ⟨c0, rest, rfl⟩
    have hmerge := merge_boundaries_fresh_none fe c0 rest
      ⟨⟨objs⟩, dedupFirst (entityNames done),
        List.range (dedupFirst (entityNames done)).length, byC⟩ hfr hnd
    refine ⟨listModify (fun g => { g with References := c0 :: rest })
        (dedupFirst (entityNames done)).length
        (objs ++ [⟨fe.name, fe.mesh_size, []⟩]),
      pushAll (c0 :: rest) (dedupFirst (entityNames done)).length byC,
      af ++ (c0 :: rest), ?_, ?_⟩
    · unfold fbwed_step
      rw [if_neg hnotfnl]
      try dsimp only
      rw [hres]
      simp only [Bool.false_eq_true, if_false]
      try dsimp only
      rw [hmerge]
      try dsimp only
      rw [if_neg (show ¬(c0 :: rest = []) from by simp)]
      dsimp only [modifyObj]
      rw [hfnl']
      rw [show (dedupFirst (entityNames done) ++ [fe.name]).length =
          (dedupFirst (entityNames done)).length + 1 from by rw [List.length_append]; rfl]
      rw [List.range_succ, hlen]
    · unfold C3Inv
      refine ⟨rfl, rfl, ?_, ?_, ?_⟩
      · show (listModify _ _ _).length = _
        rw [listModify_length, List.length_append, hfnl', List.length_append, hlen]
        rfl
      · intro k hk
        rw [hfnl', List.length_append, List.length_singleton] at hk
        by_cases hkold : k < (dedupFirst (entityNames done)).length
        · have hkne : k ≠ (dedupFirst (entityNames done)).length := by omega
          show (listModify _ _ _).getD _ mgDflt = _
          rw [getD_listModify_ne _ mgDflt _ _ _ hkne,
            List.getD_append _ _ mgDflt k (by rw [hlen]; exact hkold)]
          have hgetd : objs.getD k mgDflt = ⟨(dedupFirst (entityNames done)).getD k "",
              firstMesh done ((dedupFirst (entityNames done)).getD k ""),
              refsOf done ((dedupFirst (entityNames done)).getD k "")⟩ := hobjs k hkold
          rw [hgetd]
          have hgd : (dedupFirst (entityNames (done ++ [(fe, c0 :: rest)]))).getD k "" =
              (dedupFirst (entityNames done)).getD k "" := by
            rw [hfnl', List.getD_append _ _ "" k hkold]
          rw [hgd]
          have hnm_mem : (dedupFirst (entityNames done)).getD k "" ∈
              dedupFirst (entityNames done) := by
            rw [List.getD_eq_getElem _ _ hkold]
            exact List.getElem_mem hkold
          have hnm_names : (dedupFirst (entityNames done)).getD k "" ∈ entityNames done :=
            (dedupFirst_mem _ _).mp hnm_mem
          have hne : fe.name ≠ (dedupFirst (entityNames done)).getD k "" := by
            intro hcontra
            exact hcase (hcontra ▸ hnm_names)
          have h1 : firstMesh (done ++ [(fe, c0 :: rest)])
              ((dedupFirst (entityNames done)).getD k "")
              = firstMesh done ((dedupFirst (entityNames done)).getD k "") :=
            firstMesh_append_of_mem done (fe, c0 :: rest) _ hnm_names
          have h2 : refsOf (done ++ [(fe, c0 :: rest)])
              ((dedupFirst (entityNames done)).getD k "")
              = refsOf done ((dedupFirst (entityNames done)).getD k "") := by
            rw [refsOf_append, if_neg hne, List.append_nil]
          rw [h1, h2]
        · have hkeq : k = (dedupFirst (entityNames done)).length := by omega
          subst hkeq
          show (listModify _ _ _).getD _ mgDflt = _
          rw [getD_listModify_self _ mgDflt _ _ (by
            rw [List.length_append, List.length_singleton, hlen]
            omega)]
          have happ : (objs ++ [(⟨fe.name, fe.mesh_size, []⟩ : MeshGroup)]).getD
              (dedupFirst (entityNames done)).length mgDflt =
              ⟨fe.name, fe.mesh_size, []⟩ := by
            rw [List.getD_eq_getElem _ mgDflt (by rw [List.length_append, List.length_singleton, hlen]; omega),
              List.getElem_append_right (by rw [hlen])]
            simp [hlen]
          rw [happ]
          have hgd : (dedupFirst (entityNames (done ++ [(fe, c0 :: rest)]))).getD
              (dedupFirst (entityNames done)).length "" = fe.name := by
            rw [hfnl', List.getD_eq_getElem _ ""
              (by rw [List.length_append, List.length_singleton]; omega),
              List.getElem_append_right (by omega)]
            simp
          rw [hgd]
          have h1 : firstMesh (done ++ [(fe, c0 :: rest)]) fe.name = fe.mesh_size := by
            rw [firstMesh_append_of_not_mem done (fe, c0 :: rest) fe.name hcase]
            simp
          have h2 : refsOf (done ++ [(fe, c0 :: rest)]) fe.name = c0 :: rest := by
            rw [refsOf_append, refsOf_empty_of_not_mem done fe.name hcase]
            simp
          rw [h1, h2]
      · intro c k halk
        by_cases hcR : c ∈ c0 :: rest
        · exact ⟨(fe, c0 :: rest),
            List.mem_append.mpr (Or.inr (List.mem_singleton.mpr rfl)), hcR⟩
        · rw [alookup_pushAll_not_mem _ (c0 :: rest) byC c hcR] at halk
          obtain ⟨p, hp, hcp⟩ := hbyc c k halk
          exact ⟨p, List.mem_append.mpr (Or.inl hp), hcp⟩

/-- Folding the reconciler over the remaining entities in the disjoint
regime: from any state satisfying the invariant for the processed prefix,
the run succeeds and the invariant holds for the full input. -/
theorem C3_fold (cf : CompoundFilter) (rs : List (FaceEntity × List String))
    (hres : ∀ p ∈ rs, find_compound_filter_boundaries cf p.1.geom none = .ok p.2)
    (hnd : ∀ p ∈ rs, p.2.Nodup)
    (hdisj : rs.Pairwise (fun p q => ∀ s, s ∈ p.2 → s ∉ q.2)) :
    ∀ (todo done : List (FaceEntity × List String)) (objs : List MeshGroup)
      (byC : List (String × Nat)) (af : List String),
      rs = done ++ todo →
      C3Inv done ⟨⟨⟨objs⟩, dedupFirst (entityNames done),
        List.range (dedupFirst (entityNames done)).length, byC⟩, af⟩ →
      ∃ objs' byC' af',
        List.foldlM (fun st face => fbwed_step cf false st face)
          (⟨⟨⟨objs⟩, dedupFirst (entityNames done),
            List.range (dedupFirst (entityNames done)).length, byC⟩, af⟩ : FBState)
          (todo.map Prod.fst) =
          .ok ⟨⟨⟨objs'⟩, dedupFirst (entityNames rs),
            List.range (dedupFirst (entityNames rs)).length, byC'⟩, af'⟩ ∧
        C3Inv rs ⟨⟨⟨objs'⟩, dedupFirst (entityNames rs),
          List.range (dedupFirst (entityNames rs)).length, byC'⟩, af'⟩ := by
  intro todo
  induction todo with
  | nil =>
    intro done objs byC af heq hinv
    have hdone : done = rs := by rw [heq, List.append_nil]
    subst hdone
    exact ⟨objs, byC, af, rfl, hinv⟩
  | cons p todo' ih =>
    intro done objs byC af heq hinv
    have hp_rs : p ∈ rs := by
      rw [heq]
      exact List.mem_append.mpr (Or.inr (List.mem_cons_self _ _))
    have hfresh : ∀ s ∈ p.2, ∀ q ∈ done, s ∉ q.2 := by
      intro s hs q hq hsq
      have hpair : ∀ a ∈ done, ∀ b ∈ p :: todo', ∀ s, s ∈ a.2 → s ∉ b.2 := by
        have := (List.pairwise_append.mp (heq ▸ hdisj)).2.2
        exact this
      exact hpair q hq p (List.mem_cons_self _ _) s hsq hs
    obtain ⟨objs1, byC1, af1, hstep, hinv1⟩ :=
      C3_step cf done p.1 p.2 objs byC af hinv (hres p hp_rs) (hnd p hp_rs) hfresh
    have heq' : rs = (done ++ [(p.1, p.2)]) ++ todo' := by
      rw [List.append_assoc]
      simpa using heq
    obtain ⟨objs', byC', af', hfold, hinv'⟩ :=
      ih (done ++ [(p.1, p.2)]) objs1 byC1 af1 heq' hinv1
    refine ⟨objs', byC', af', ?_, hinv'⟩
    rw [List.map_cons, List.foldlM_cons, hstep]
    show List.foldlM (fun st face => fbwed_step cf false st face) _ (todo'.map Prod.fst) = _
    exact hfold

/-- The relation «the resolved faces of `p` and `q` are disjoint» is
symmetric. -/
theorem disjointPairSymm :
    Symmetric (fun p q : FaceEntity × List String => ∀ s, s ∈ p.2 → s ∉ q.2) :=
  fun _ _ h s hq hp => h s hp hq

/-- The reconciler invariant at the full input implies the partition
property. -/
theorem C3Inv_partition (cf : CompoundFilter) (rs : List (FaceEntity × List String))
    (objs : List MeshGroup) (byC : List (String × Nat)) (af : List String)
    (hres : ∀ p ∈ rs, find_compound_filter_boundaries cf p.1.geom none = .ok p.2)
    (hdisj : rs.Pairwise (fun p q => ∀ s, s ∈ p.2 → s ∉ q.2))
    (hcov : ∀ i, i < cf.Faces.length → ∃ p ∈ rs, faceIdxName i ∈ p.2)
    (hinv : C3Inv rs ⟨⟨⟨objs⟩, dedupFirst (entityNames rs),
      List.range (dedupFirst (entityNames rs)).length, byC⟩, af⟩) :
    ReconcilerPartition cf rs ⟨⟨⟨objs⟩, dedupFirst (entityNames rs),
      List.range (dedupFirst (entityNames rs)).length, byC⟩, af⟩ := by
  have hlen : objs.length = (dedupFirst (entityNames rs)).length := hinv.2.2.1
  have hobjs : ∀ k, k < (dedupFirst (entityNames rs)).length →
      getObj ⟨objs⟩ k = ⟨(dedupFirst (entityNames rs)).getD k "",
        firstMesh rs ((dedupFirst (entityNames rs)).getD k ""),
        refsOf rs ((dedupFirst (entityNames rs)).getD k "")⟩ := hinv.2.2.2.1
  have hgetk : ∀ k, (hk : k < objs.length) →
      objs[k] = ⟨(dedupFirst (entityNames rs)).getD k "",
        firstMesh rs ((dedupFirst (entityNames rs)).getD k ""),
        refsOf rs ((dedupFirst (entityNames rs)).getD k "")⟩ := by
    intro k hk
    have := hobjs k (hlen ▸ hk)
    rwa [show getObj ⟨objs⟩ k = objs.getD k mgDflt from rfl,
      List.getD_eq_getElem objs mgDflt hk] at this
  have hmemname : ∀ g ∈ objs, ∃ k, ∃ hk : k < objs.length, g = objs[k] := by
    intro g hg
    obtain ⟨k, hk, hgk⟩ := List.mem_iff_getElem.mp hg
    exact ⟨k, hk, hgk.symm⟩
  have hown : ∀ s, (∃ g ∈ objs, s ∈ g.References) ↔ ∃ p ∈ rs, s ∈ p.2 := by
    intro s
    constructor
    · rintro ⟨g, hg, hs⟩
      obtain ⟨k, hk, rfl⟩ := hmemname g hg
      rw [hgetk k hk] at hs
      obtain ⟨p, hp, _, hps⟩ := (mem_refsOf _ _ _).mp hs
      exact ⟨p, hp, hps⟩
    · rintro ⟨p, hp, hps⟩
      have hnm : p.1.name ∈ entityNames rs := List.mem_map.mpr ⟨p, hp, rfl⟩
      have hnmf : p.1.name ∈ dedupFirst (entityNames rs) := (dedupFirst_mem _ _).mpr hnm
      have hidx : (dedupFirst (entityNames rs)).indexOf p.1.name <
          (dedupFirst (entityNames rs)).length := List.indexOf_lt_length.mpr hnmf
      have hidx' : (dedupFirst (entityNames rs)).indexOf p.1.name < objs.length := by
        omega
      refine ⟨objs[(dedupFirst (entityNames rs)).indexOf p.1.name],
        List.getElem_mem hidx', ?_⟩
      rw [hgetk _ hidx']
      show s ∈ refsOf rs ((dedupFirst (entityNames rs)).getD _ "")
      rw [List.getD_eq_getElem _ _ hidx, List.getElem_indexOf hidx]
      exact (mem_refsOf _ _ _).mpr ⟨p, hp, rfl, hps⟩
  unfold ReconcilerPartition
  refine ⟨?_, ?_, ?_, ?_⟩
  · -- labels are exactly the deduplicated names, hence nodup
    have hmap : objs.map MeshGroup.Label = dedupFirst (entityNames rs) := by
      apply List.ext_getElem
      · rw [List.length_map, hlen]
      · intro k h1 h2
        rw [List.getElem_map, hgetk k (by simpa using h1)]
        rw [List.getD_eq_getElem _ _ h2]
    rw [show (⟨⟨⟨objs⟩, dedupFirst (entityNames rs),
      List.range (dedupFirst (entityNames rs)).length, byC⟩, af⟩ :
        FBState).bstate.doc.objs = objs from rfl, hmap]
    exact dedupFirst_nodup _
  · -- distinct groups own disjoint reference sets
    intro i j hi hj hij s hsi hsj
    have hi' : i < objs.length := hi
    have hj' : j < objs.length := hj
    rw [show getObj ⟨objs⟩ i = objs.getD i mgDflt from rfl,
      List.getD_eq_getElem objs mgDflt hi', hgetk i hi'] at hsi
    rw [show getObj ⟨objs⟩ j = objs.getD j mgDflt from rfl,
      List.getD_eq_getElem objs mgDflt hj', hgetk j hj'] at hsj
    obtain ⟨p, hp, hpn, hps⟩ := (mem_refsOf _ _ _).mp hsi
    obtain ⟨q, hq, hqn, hqs⟩ := (mem_refsOf _ _ _).mp hsj
    have hnames_ne : (dedupFirst (entityNames rs)).getD i "" ≠
        (dedupFirst (entityNames rs)).getD j "" := by
      intro hcontra
      apply hij
      rw [List.getD_eq_getElem _ _ (hlen ▸ hi'), List.getD_eq_getElem _ _ (hlen ▸ hj')]
        at hcontra
      exact ((dedupFirst_nodup (entityNames rs)).getElem_inj_iff).mp hcontra
    have hpq : p ≠ q := by
      intro hcontra
      rw [hcontra] at hpn
      exact hnames_ne (hpn.symm.trans hqn)
    exact (hdisj.forall disjointPairSymm) hp hq hpq s hps hqs
  · -- a face is owned by some group iff some entity resolved to it
    exact fun s => hown s
  · -- a name is owned by some group iff it is a compound-filter face name
    intro s
    constructor
    · intro hs
      obtain ⟨p, hp, hps⟩ := (hown s).mp hs
      exact fcfb_ok_names cf p.1.geom none p.2 (hres p hp) s hps
    · rintro ⟨i, hi, rfl⟩
      exact (hown _).mpr (hcov i hi)

/-- C3.  In the disjoint-and-covering regime — every input entity's
resolved compound-face list succeeds, is duplicate-free and is disjoint
from every other entity's list, and every compound-filter face is resolved
by some entity, as is the case for the faces of N disjoint solids with no
shared geometry whose union is the compound — the boundary reconciler
succeeds and produces groups with pairwise distinct labels whose reference
sets are pairwise disjoint and whose union is the ENTIRE set of
compound-filter face names: a partition with no omissions and no overlaps,
each compound-filter face index owned by exactly one uniquely-named
group. -/
theorem claim_C3 (cf : CompoundFilter) (faces : List FaceEntity)
    (rs : List (FaceEntity × List String))
    (hfaces : faces = rs.map Prod.fst)
    (hres : ∀ p ∈ rs, find_compound_filter_boundaries cf p.1.geom none = .ok p.2)
    (hnd : ∀ p ∈ rs, p.2.Nodup)
    (hdisj : rs.Pairwise (fun p q => ∀ s, s ∈ p.2 → s ∉ q.2))
    (hcov : ∀ i, i < cf.Faces.length → ∃ p ∈ rs, faceIdxName i ∈ p.2) :
    ∃ st : FBState, find_boundaries_with_entities_dict cf faces false = .ok st ∧
      ReconcilerPartition cf rs st := by
  subst hfaces
  have hinv0 : C3Inv [] ⟨⟨⟨[]⟩, dedupFirst (entityNames []),
      List.range (dedupFirst (entityNames [])).length, []⟩, []⟩ := by
    refine ⟨rfl, rfl, rfl, ?_, ?_⟩
    · intro k hk
      cases hk
    · intro c k halk
      cases halk
  obtain ⟨objs', byC', af', hfold, hinv⟩ :=
    C3_fold cf rs hres hnd hdisj rs [] [] [] [] (by simp) hinv0
  refine ⟨⟨⟨⟨objs'⟩, dedupFirst (entityNames rs),
    List.range (dedupFirst (entityNames rs)).length, byC'⟩, af'⟩, ?_, ?_⟩
  · exact hfold
  · exact C3Inv_partition cf rs objs' byC' af' hres hdisj hcov hinv

/-- `add_entity_in_list` with the singleton `{'mesh size': v}` mapping used
by `merge_entities_dicts` always resolves the size to `v` (also when the
entity is literally named `"mesh size"`). -/
theorem add_entity_in_list_mesh_size (acc : List GEntity) (nm : String) (g : Nat)
    (v : Option ℚ) :
    add_entity_in_list acc nm g (some [("mesh size", v)]) = acc ++ [⟨nm, g, v⟩] := by
  unfold add_entity_in_list
  by_cases h : ("mesh size" : String) = nm
  · simp [alookup, h]
  · simp [alookup, h]

/-- Characterisation of the face loop of `merge_entities_dicts`: the output
list grows by one prefixed entity per face (same geometry, filled mesh
size), and the input faces come back with unset mesh sizes overwritten. -/
theorem merge_faces_fold_eq (dn : String) (pf : Bool) (dms : Option ℚ) :
    ∀ (faces acc : List GEntity),
      merge_faces_fold dn pf dms acc faces =
        (acc ++ faces.map (fun f => ⟨if pf then dn ++ "_" ++ f.name else f.name, f.geom,
          (fillMeshSize dms f).mesh_size⟩),
         faces.map (fillMeshSize dms)) := by
  intro faces
  induction faces with
  | nil => intro acc; simp [merge_faces_fold]
  | cons f rest ih =>
    intro acc
    rw [merge_faces_fold]
    have hone : merge_one_face dn pf dms acc f =
        (acc ++ [⟨if pf then dn ++ "_" ++ f.name else f.name, f.geom,
          (fillMeshSize dms f).mesh_size⟩], fillMeshSize dms f) := by
      unfold merge_one_face
      dsimp only
      rw [add_entity_in_list_mesh_size]
      rfl
    rw [hone, ih]
    simp [fillMeshSize]

/-- Characterisation of the solid loop of `merge_entities_dicts`. -/
theorem merge_solids_fold_eq (dn : String) (ps : Bool) (dms : Option ℚ) :
    ∀ (solids acc : List GEntity),
      merge_solids_fold dn ps dms acc solids =
        (acc ++ solids.map (fun s => ⟨if ps then dn ++ "_" ++ s.name else s.name, s.geom,
          (fillMeshSize dms s).mesh_size⟩),
         solids.map (fillMeshSize dms)) := by
  intro solids
  induction solids with
  | nil => intro acc; simp [merge_solids_fold]
  | cons s rest ih =>
    intro acc
    rw [merge_solids_fold]
    have hone : merge_one_solid dn ps dms acc s =
        (acc ++ [⟨if ps then dn ++ "_" ++ s.name else s.name, s.geom,
          (fillMeshSize dms s).mesh_size⟩], fillMeshSize dms s) := by
      unfold merge_one_solid
      dsimp only
      rw [add_entity_in_list_mesh_size]
      rfl
    rw [hone, ih]
    simp [fillMeshSize]

/-- Characterisation of the dict loop of `merge_entities_dicts`. -/
theorem merge_dicts_fold_eq (ps pf : Bool) (dms : Option ℚ) :
    ∀ (dicts : List EntitiesDict) (fa sa : List GEntity) (pa : List Nat),
      merge_dicts_fold ps pf dms fa sa pa dicts =
        ((fa ++ dicts.flatMap (fun d => d.faces.map (fun f =>
            ⟨if pf then d.name ++ "_" ++ f.name else f.name, f.geom,
              (fillMeshSize dms f).mesh_size⟩)),
          sa ++ dicts.flatMap (fun d => d.solids.map (fun s =>
            ⟨if ps then d.name ++ "_" ++ s.name else s.name, s.geom,
              (fillMeshSize dms s).mesh_size⟩)),
          pa ++ dicts.filterMap (fun d => d.transfinite_mesh_params)),
         dicts.map (dictAfterMerge dms)) := by
  intro dicts
  induction dicts with
  | nil => intro fa sa pa; simp [merge_dicts_fold]
  | cons d rest ih =>
    intro fa sa pa
    rw [merge_dicts_fold, merge_faces_fold_eq, merge_solids_fold_eq, ih]
    cases hp : d.transfinite_mesh_params with
    | none =>
      simp [dictAfterMerge, List.flatMap_cons, List.filterMap_cons, hp,
        List.append_assoc]
    | some t =>
      simp [dictAfterMerge, List.flatMap_cons, List.filterMap_cons, hp,
        List.append_assoc]

/-- C10.  `merge_entities_dicts` mutates its input registries: after the
merge, every face and solid entry of every input dict whose mesh size was
unset carries the default mesh size (written into the input entry itself),
and nothing else of the inputs changes; the output entries share the
geometry and the (updated) mesh size of the inputs, only their `name` field
being freshly built from the optional source-registry prefix. -/
theorem claim_C10 (dicts : List EntitiesDict) (name : String) (dms : Option ℚ)
    (pre : Option (Bool × Bool)) :
    (merge_entities_dicts dicts name dms pre).2 = dicts.map (dictAfterMerge dms) ∧
    (merge_entities_dicts dicts name dms pre).1.faces =
      dicts.flatMap (fun d => d.faces.map (fun f =>
        ⟨if (match pre with | none => (false, true) | some p => p).2 then
            d.name ++ "_" ++ f.name else f.name, f.geom,
          (fillMeshSize dms f).mesh_size⟩)) ∧
    (merge_entities_dicts dicts name dms pre).1.solids =
      dicts.flatMap (fun d => d.solids.map (fun s =>
        ⟨if (match pre with | none => (false, true) | some p => p).1 then
            d.name ++ "_" ++ s.name else s.name, s.geom,
          (fillMeshSize dms s).mesh_size⟩)) := by
  unfold merge_entities_dicts
  dsimp only
  rw [merge_dicts_fold_eq]
  refine ⟨rfl, ?_, ?_⟩
  · simp
  · simp

/-- Concrete run: on the five-probe compound filter, a container accepting
only the fifth witness point resolves to `Face5`. -/
theorem fcfb_cfFive_p5 :
    find_compound_filter_boundaries cfFive (containerFace [probePoint 5]) none =
      .ok ["Face5"] := by
  rw [show cfFive = ⟨[probePoint 1, probePoint 2, probePoint 3, probePoint 4,
    probePoint 5].map probeFace, []⟩ from rfl]
  rw [fcfb_probes]
  norm_num [List.enum, List.enumFrom, probePoint, Vec.mk.injEq, faceIdxName]
  rfl

/-- Concrete run: on the six-probe compound filter, a container accepting
the fifth and sixth witness points resolves to `Face5, Face6`. -/
theorem fcfb_cfSix_p56 :
    find_compound_filter_boundaries cfSix (containerFace [probePoint 5, probePoint 6]) none =
      .ok ["Face5", "Face6"] := by
  rw [show cfSix = ⟨[probePoint 1, probePoint 2, probePoint 3, probePoint 4,
    probePoint 5, probePoint 6].map probeFace, []⟩ from rfl]
  rw [fcfb_probes]
  norm_num [List.enum, List.enumFrom, probePoint, Vec.mk.injEq, faceIdxName]
  rfl

/-- Concrete run: on the six-probe compound filter, a container accepting
only the sixth witness point resolves to `Face6`. -/
theorem fcfb_cfSix_p6 :
    find_compound_filter_boundaries cfSix (containerFace [probePoint 6]) none =
      .ok ["Face6"] := by
  rw [show cfSix = ⟨[probePoint 1, probePoint 2, probePoint 3, probePoint 4,
    probePoint 5, probePoint 6].map probeFace, []⟩ from rfl]
  rw [fcfb_probes]
  norm_num [List.enum, List.enumFrom, probePoint, Vec.mk.injEq, faceIdxName]
  rfl

/-- Concrete run: on the two-probe compound filter, a container accepting
only the first witness point resolves to `Face1`. -/
theorem fcfb_cfTwo_p1 :
    find_compound_filter_boundaries cfTwo (containerFace [probePoint 1]) none =
      .ok ["Face1"] := by
  rw [show cfTwo = ⟨[probePoint 1, probePoint 2].map probeFace, []⟩ from rfl]
  rw [fcfb_probes]
  norm_num [List.enum, List.enumFrom, probePoint, Vec.mk.injEq, faceIdxName]
  rfl

/-- Concrete run: on the two-probe compound filter, a container accepting
only the second witness point resolves to `Face2`. -/
theorem fcfb_cfTwo_p2 :
    find_compound_filter_boundaries cfTwo (containerFace [probePoint 2]) none =
      .ok ["Face2"] := by
  rw [show cfTwo = ⟨[probePoint 1, probePoint 2].map probeFace, []⟩ from rfl]
  rw [fcfb_probes]
  norm_num [List.enum, List.enumFrom, probePoint, Vec.mk.injEq, faceIdxName]
  rfl

/-- C1 witness at a concrete input: entities `A` and `B` whose geometries
both resolve to the single boundary `Face5` of the five-probe compound
filter end up merged into one group labelled `A_B`. -/
theorem claim_C1_witness :
    find_boundaries_with_entities_dict cfFive
        [⟨"A", containerFace [probePoint 5], some 2⟩,
         ⟨"B", containerFace [probePoint 5], none⟩] false =
      .ok ⟨⟨⟨[⟨"A" ++ "_" ++ "B", some 2, ["Face5"]⟩]⟩, ["A" ++ "_" ++ "B"], [0],
        [("Face5", 0)]⟩, ["Face5", "Face5"]⟩ :=
  claim_C1 cfFive "A" "B" "Face5" (containerFace [probePoint 5])
    (containerFace [probePoint 5]) (some 2) none (by decide)
    fcfb_cfFive_p5 fcfb_cfFive_p5

/-- C2 witness at a concrete input: entity `A` resolves to `Face5, Face6`
and entity `B` to `Face6`; the overlap `Face6` is split off into a fresh
group `A_B` while `A` keeps `Face5`. -/
theorem claim_C2_witness :
    find_boundaries_with_entities_dict cfSix
        [⟨"A", containerFace [probePoint 5, probePoint 6], some 2⟩,
         ⟨"B", containerFace [probePoint 6], none⟩] false =
      .ok ⟨⟨⟨[⟨"A", some 2, ["Face5"]⟩, ⟨"A" ++ "_" ++ "B", none, ["Face6"]⟩]⟩,
        ["A", "A" ++ "_" ++ "B"], [0, 1], [("Face6", 1), ("Face6", 0), ("Face5", 0)]⟩,
        ["Face5", "Face6", "Face6"]⟩ :=
  claim_C2 cfSix "A" "B" "Face5" "Face6" (containerFace [probePoint 5, probePoint 6])
    (containerFace [probePoint 6]) (some 2) none (by decide) (by decide)
    fcfb_cfSix_p56 fcfb_cfSix_p6

/-- C3 witness at a concrete input: two entities whose disjoint resolved
boundary lists `Face1` and `Face2` together cover the whole two-probe
compound filter yield a final state partitioned exactly as
`ReconcilerPartition` states. -/
theorem claim_C3_witness :
    ∃ st : FBState,
      find_boundaries_with_entities_dict cfTwo
        [⟨"A", containerFace [probePoint 1], some 2⟩,
         ⟨"B", containerFace [probePoint 2], none⟩] false = .ok st ∧
      ReconcilerPartition cfTwo
        [(⟨"A", containerFace [probePoint 1], some 2⟩, ["Face1"]),
         (⟨"B", containerFace [probePoint 2], none⟩, ["Face2"])] st :=
  claim_C3 cfTwo _ _ rfl
    (by
      intro p hp
      simp only [List.mem_cons, List.not_mem_nil, or_false] at hp
      rcases hp with rfl | rfl
      · exact fcfb_cfTwo_p1
      · exact fcfb_cfTwo_p2)
    (by
      intro p hp
      simp only [List.mem_cons, List.not_mem_nil, or_false] at hp
      rcases hp with rfl | rfl <;> simp)
    (by
      refine List.pairwise_cons.mpr ⟨?_, List.pairwise_singleton _ _⟩
      intro q hq s hs
      simp only [List.mem_cons, List.not_mem_nil, or_false] at hq
      subst hq
      simp only [List.mem_singleton] at hs
      subst hs
      decide)
    (by
      intro i hi
      have h2 : i < 2 := hi
      interval_cases i
      · exact ⟨(⟨"A", containerFace [probePoint 1], some 2⟩, ["Face1"]),
          by simp, by decide⟩
      · exact ⟨(⟨"B", containerFace [probePoint 2], none⟩, ["Face2"]),
          by simp, by decide⟩)

/-- C6 amended-claim witness at a concrete input: the face with two
far-apart vertices compares equal to itself, and its comparison with the
near-duplicate face is symmetric. -/
theorem claim_C6_amended_witness :
    faces_are_same farVertexFace farVertexFace default_tol = true ∧
      faces_are_same farVertexFace nearDupFace default_tol =
        faces_are_same nearDupFace farVertexFace default_tol :=
  claim_C6_amended farVertexFace nearDupFace default_tol
    (by
      simp only [farVertexFace, plainFace, List.pairwise_cons, List.mem_singleton,
        List.not_mem_nil, List.Pairwise.nil, and_true]
      refine ⟨fun b hb => ?_, fun b hb => hb.elim⟩
      subst hb
      norm_num [vectors_are_same, sqNorm, vsub, default_tol])

/-- C4 witness at a concrete input: on the two-probe compound filter with
`Face1` already used, the used-names search accepts only index 1 and returns
`Face2`. -/
theorem claim_C4_witness :
    find_compound_filter_boundaries cfTwo (containerFace [probePoint 1, probePoint 2])
      (some ["Face1"]) = .ok ["Face2"] := by
  have e1 : is_face_in_face (probeFace (probePoint 1))
      (containerFace [probePoint 1, probePoint 2]) default_tol = .ok true := by
    rw [is_face_in_face_probe_container]; rfl
  have e2 : is_face_in_face (probeFace (probePoint 2))
      (containerFace [probePoint 1, probePoint 2]) default_tol = .ok true := by
    rw [is_face_in_face_probe_container]; rfl
  have hA : ∀ i (hi : i < cfTwo.Faces.length),
      ∃ b, is_face_in_face cfTwo.Faces[i] (containerFace [probePoint 1, probePoint 2])
        default_tol = .ok b := by
    intro i hi
    have h2 : i < 2 := hi
    interval_cases i
    · exact ⟨true, e1⟩
    · exact ⟨true, e2⟩
  have hB : ∀ i j (hi : i < cfTwo.Faces.length) (hj : j < cfTwo.Faces.length),
      ∃ b, is_face_in_face cfTwo.Faces[i] cfTwo.Faces[j] default_tol = .ok b := by
    intro i j hi hj
    have h2 : i < 2 := hi
    have h2' : j < 2 := hj
    interval_cases i <;> interval_cases j <;>
      exact ⟨false, is_face_in_face_probe_probe _ _⟩
  have hs1 : acceptedUpTo cfTwo (containerFace [probePoint 1, probePoint 2]) ["Face1"] 1 =
      (if containsOkTrue (is_face_in_face (probeFace (probePoint 1))
            (containerFace [probePoint 1, probePoint 2]) default_tol) &&
          !true && true
       then [0] else []) := rfl
  rw [e1] at hs1
  simp only [containsOkTrue, Bool.not_true, Bool.and_false, Bool.false_and,
    Bool.false_eq_true, if_false] at hs1
  have hs2 : acceptedUpTo cfTwo (containerFace [probePoint 1, probePoint 2]) ["Face1"] 2 =
      (if containsOkTrue (is_face_in_face (probeFace (probePoint 2))
            (containerFace [probePoint 1, probePoint 2]) default_tol) &&
          !false &&
          (acceptedUpTo cfTwo (containerFace [probePoint 1, probePoint 2]) ["Face1"] 1).all
            (fun j => !(containsOkTrue (is_face_in_face (probeFace (probePoint 2))
              (cfTwo.Faces.getD j (containerFace [probePoint 1, probePoint 2]))
              default_tol)))
       then (acceptedUpTo cfTwo (containerFace [probePoint 1, probePoint 2]) ["Face1"] 1)
          ++ [1]
       else acceptedUpTo cfTwo (containerFace [probePoint 1, probePoint 2]) ["Face1"] 1) :=
    rfl
  rw [e2, hs1] at hs2
  simp only [containsOkTrue, Bool.not_false, Bool.and_true, Bool.true_and, List.all_nil,
    List.nil_append, if_true] at hs2
  rw [claim_C4 cfTwo (containerFace [probePoint 1, probePoint 2]) ["Face1"] hA hB]
  rw [show cfTwo.Faces.length = 2 from rfl, hs2]
  rfl

/-- C5 witness at a concrete input: on a compound filter whose two faces and
two solids all match the query, the locators return the names of the LAST
matches, `Face2` and `Solid2`. -/
theorem claim_C5_witness_run :
    find_compound_filter_boundary cfRepeat vertFace = some "Face2" ∧
      find_compound_filter_solid cfRepeat vertSolid = some "Solid2" := by
  have hv : vectors_are_same origin origin default_tol = true := by
    norm_num [vectors_are_same, sqNorm, vsub, origin]
  have hmatch : faces_have_same_vertices vertFace vertFace default_tol = true := by
    simp [faces_have_same_vertices, countMatchingPairs, vertFace, plainFace, hv,
      List.countP_cons]
  have hcom : faces_same_center_of_masses vertFace vertFace default_tol = true := by
    simp [faces_same_center_of_masses, vertFace, plainFace, hv]
  have hsol : solids_are_the_same vertSolid vertSolid = true := by
    simp [solids_are_the_same, countMatchingFacePairs, vertSolid, hcom, hmatch,
      List.countP_cons]
  have h := claim_C5 cfRepeat vertFace vertSolid
  constructor
  · refine h.2.1 1 (by norm_num [cfRepeat]) hmatch ?_
    intro j hj hlt
    have h2 : j < 2 := hj
    exact absurd hlt (by omega)
  · refine h.2.2.2 1 (by norm_num [cfRepeat]) hsol ?_
    intro j hj hlt
    have h2 : j < 2 := hj
    exact absurd hlt (by omega)
